import Mathlib

/-!
# Verification of the luup-agent orchestration core

Shallow embedding of the agent orchestration engine of the `luup-agent`
library (files `src/core/agent.cpp`, `src/core/tool_calling.cpp`,
`src/core/context_manager.cpp`, `src/core/error_handling.cpp`,
`src/builtin_tools/todo_list.cpp`, `src/builtin_tools/notes.cpp`,
`src/builtin_tools/summarization.cpp`), together with proofs and
refutations of the specification's claims about it.

Modelling conventions:
* C strings and `std::string` are Lean `String` / `List Char`; all inputs
  exercised by the theorems are ASCII, so byte positions coincide with
  character positions.
* Nullable C pointers become `Option`.
* The external inference backend is a parameter (a function from call index
  and prompt to an optional response; `none` models a null return).
* JSON values (the `nlohmann::json` library, which is a third-party
  dependency, not part of this repository) are modelled by the `Json`
  inductive below, with numbers restricted to integers: no claim under
  verification depends on floating-point literals, and the restriction is
  what keeps serialisation exact.  Object key lookup follows the library's
  last-duplicate-wins semantics; fields are kept in insertion order (the
  library's `std::map` keeps them sorted, which only affects the textual
  order of keys in dumps, not any lookup that the claims depend on).
-/

/-- A conversation message: the `Message` struct of `agent.cpp` /
`context_manager.cpp` (a role string and a content string). -/
structure Msg where
  role : String
  content : String
deriving DecidableEq, Repr

/-- The opening-brace character, kept as a named constant. -/
def lbrace : Char := Char.ofNat 123

/-- The closing-brace character, kept as a named constant. -/
def rbrace : Char := Char.ofNat 125

/-- JSON values, modelling `nlohmann::json` with integer numerals. -/
inductive Json where
  | null : Json
  | bool (b : Bool) : Json
  | num (n : Int) : Json
  | str (s : String) : Json
  | arr (elems : List Json) : Json
  | obj (fields : List (String × Json)) : Json
deriving Repr

/-- Hexadecimal digit characters (lower case), as emitted by the JSON
serialiser for control-character escapes. -/
def hexDigitChar (n : Nat) : Char :=
  if n < 10 then Char.ofNat (48 + n) else Char.ofNat (87 + n)

/-- Serialisation of one string character, following `nlohmann::json`'s
`dump`: `"` and `\` get a backslash escape, the five control characters
with short forms use them, remaining control characters use `\u00XX`, and
everything else is emitted literally. -/
def escChar (c : Char) : List Char :=
  if c = '"' then ['\\', '"']
  else if c = '\\' then ['\\', '\\']
  else if c = Char.ofNat 8 then ['\\', 'b']
  else if c = Char.ofNat 9 then ['\\', 't']
  else if c = Char.ofNat 10 then ['\\', 'n']
  else if c = Char.ofNat 12 then ['\\', 'f']
  else if c = Char.ofNat 13 then ['\\', 'r']
  else if c.toNat < 32 then
    ['\\', 'u', '0', '0', hexDigitChar (c.toNat / 16), hexDigitChar (c.toNat % 16)]
  else [c]

/-- Serialisation of a string body (without the surrounding quotes). -/
def escChars : List Char → List Char
  | [] => []
  | c :: cs => escChar c ++ escChars cs

/-- Decimal digits: fueled worker, so that the definition is structurally
recursive and evaluates inside the kernel.  The fuel is never exhausted
when it is at least the number being printed. -/
def natCharsRevAux : Nat → Nat → List Char
  | 0, n => [Char.ofNat (48 + n % 10)]
  | fuel + 1, n =>
    if n < 10 then [Char.ofNat (48 + n)]
    else Char.ofNat (48 + n % 10) :: natCharsRevAux fuel (n / 10)

/-- Decimal digits of a natural number, least significant first. -/
def natCharsRev (n : Nat) : List Char := natCharsRevAux n n

/-- Decimal digits of a natural number, most significant first. -/
def natChars (n : Nat) : List Char := (natCharsRev n).reverse

/-- Decimal rendering of an integer as characters. -/
def intChars (n : Int) : List Char :=
  if n < 0 then '-' :: natChars n.natAbs else natChars n.toNat

mutual
/-- Compact JSON serialisation (`nlohmann::json::dump()` with no indent),
as a character list. -/
def dumpChars : Json → List Char
  | .null => ['n', 'u', 'l', 'l']
  | .bool b => if b then ['t', 'r', 'u', 'e'] else ['f', 'a', 'l', 's', 'e']
  | .num n => intChars n
  | .str s => '"' :: (escChars s.data ++ ['"'])
  | .arr es => '[' :: (dumpElems es ++ [']'])
  | .obj fs => lbrace :: (dumpFields fs ++ [rbrace])

/-- Serialisation of array elements, comma separated. -/
def dumpElems : List Json → List Char
  | [] => []
  | [v] => dumpChars v
  | v :: w :: rest => dumpChars v ++ ',' :: dumpElems (w :: rest)

/-- Serialisation of object members, comma separated. -/
def dumpFields : List (String × Json) → List Char
  | [] => []
  | [(k, v)] => '"' :: (escChars k.data ++ ['"', ':'] ++ dumpChars v)
  | (k, v) :: f :: rest =>
      '"' :: (escChars k.data ++ ['"', ':'] ++ dumpChars v) ++ ',' :: dumpFields (f :: rest)
end

/-- Compact JSON serialisation as a `String` (`nlohmann::json::dump()`). -/
def dumpJson (v : Json) : String := String.mk (dumpChars v)

mutual
/-- Fuel cost of parsing a value: one unit per parser re-entry. -/
def jsize : Json → Nat
  | .null => 1
  | .bool _ => 1
  | .num _ => 1
  | .str _ => 1
  | .arr es => 1 + jsizeElems es
  | .obj fs => 1 + jsizeFields fs

/-- Fuel cost of an element list. -/
def jsizeElems : List Json → Nat
  | [] => 0
  | v :: rest => 1 + jsize v + jsizeElems rest

/-- Fuel cost of a member list. -/
def jsizeFields : List (String × Json) → Nat
  | [] => 0
  | (_, v) :: rest => 1 + jsize v + jsizeFields rest
end

mutual
/-- Well-formedness of a JSON value: every object in it has pairwise
distinct keys.  Values produced by the parser below satisfy this. -/
def JsonWF : Json → Prop
  | .null => True
  | .bool _ => True
  | .num _ => True
  | .str _ => True
  | .arr es => JsonWFElems es
  | .obj fs => (fs.map Prod.fst).Nodup ∧ JsonWFFields fs

/-- All elements well formed. -/
def JsonWFElems : List Json → Prop
  | [] => True
  | v :: rest => JsonWF v ∧ JsonWFElems rest

/-- All member values well formed. -/
def JsonWFFields : List (String × Json) → Prop
  | [] => True
  | (_, v) :: rest => JsonWF v ∧ JsonWFFields rest
end

/-- Key lookup on an object: `j[k]` of `nlohmann::json` restricted to the
read-only use the source makes of it (`contains` guards every access).
Returns `none` on non-objects and missing keys. -/
def objLookup (j : Json) (k : String) : Option Json :=
  match j with
  | .obj fs => fs.lookup k
  | _ => none

/-- `nlohmann::json::contains`: true only on objects that have the key. -/
def jContains (j : Json) (k : String) : Bool :=
  (objLookup j k).isSome


/-- JSON whitespace skipping (space, tab, newline, carriage return). -/
def skipWs : List Char → List Char
  | [] => []
  | c :: cs =>
    if c = ' ' ∨ c = Char.ofNat 9 ∨ c = Char.ofNat 10 ∨ c = Char.ofNat 13 then skipWs cs
    else c :: cs

/-- Value of a hexadecimal digit character, if it is one. -/
def hexVal (c : Char) : Option Nat :=
  if 48 ≤ c.toNat ∧ c.toNat ≤ 57 then some (c.toNat - 48)
  else if 97 ≤ c.toNat ∧ c.toNat ≤ 102 then some (c.toNat - 87)
  else if 65 ≤ c.toNat ∧ c.toNat ≤ 70 then some (c.toNat - 55)
  else none

/-- Decode one backslash escape (the input starts after the backslash):
the short escapes and `\uXXXX`, including surrogate pairs, as in the
`nlohmann` lexer.  Returns the decoded character and the rest. -/
def unescape1 : List Char → Option (Char × List Char)
  | [] => none
  | e :: cs =>
    if e = '"' then some ('"', cs)
    else if e = '\\' then some ('\\', cs)
    else if e = '/' then some ('/', cs)
    else if e = 'b' then some (Char.ofNat 8, cs)
    else if e = 'f' then some (Char.ofNat 12, cs)
    else if e = 'n' then some (Char.ofNat 10, cs)
    else if e = 'r' then some (Char.ofNat 13, cs)
    else if e = 't' then some (Char.ofNat 9, cs)
    else if e = 'u' then
      match cs with
      | h1 :: h2 :: h3 :: h4 :: cs3 =>
        match hexVal h1, hexVal h2, hexVal h3, hexVal h4 with
        | some a, some b, some c1, some d =>
          let n := 4096 * a + 256 * b + 16 * c1 + d
          if 55296 ≤ n ∧ n ≤ 56319 then
            match cs3 with
            | b1 :: b2 :: h5 :: h6 :: h7 :: h8 :: cs4 =>
              if b1 = '\\' ∧ b2 = 'u' then
                match hexVal h5, hexVal h6, hexVal h7, hexVal h8 with
                | some a2, some b2', some c2, some d2 =>
                  let m := 4096 * a2 + 256 * b2' + 16 * c2 + d2
                  if 56320 ≤ m ∧ m ≤ 57343 then
                    some (Char.ofNat (65536 + 1024 * (n - 55296) + (m - 56320)), cs4)
                  else none
                | _, _, _, _ => none
              else none
            | _ => none
          else if 56320 ≤ n ∧ n ≤ 57343 then none
          else some (Char.ofNat n, cs3)
        | _, _, _, _ => none
      | _ => none
    else none

/-- Parse the body of a JSON string literal (after the opening quote),
returning the decoded characters and the input after the closing quote.
Rejects raw control characters, as the strict `nlohmann` lexer does.
Fueled: one unit per decoded character, so any fuel above the input
length behaves like the unfueled function. -/
def parseStrBody : Nat → List Char → Option (List Char × List Char)
  | 0, _ => none
  | _ + 1, [] => none
  | fuel + 1, c :: cs =>
    if c = '"' then some ([], cs)
    else if c = '\\' then
      match unescape1 cs with
      | some (d, cs2) => (parseStrBody fuel cs2).map (fun p => (d :: p.1, p.2))
      | none => none
    else if c.toNat < 32 then none
    else (parseStrBody fuel cs).map (fun p => (c :: p.1, p.2))

/-- Numeric value of a list of decimal digit characters. -/
def digitsVal (ds : List Char) : Nat :=
  ds.foldl (fun a c => 10 * a + (c.toNat - 48)) 0

/-- Parse an unsigned JSON integer numeral: a maximal digit run with no
leading zero, not followed by `.`, `e` or `E` (float literals are outside
the model; see the file header). -/
def parseNat (cs : List Char) : Option (Nat × List Char) :=
  let ds := cs.takeWhile Char.isDigit
  let rest := cs.dropWhile Char.isDigit
  if ds = [] then none
  else if ds.head? = some '0' ∧ ds ≠ ['0'] then none
  else
    match rest.head? with
    | some c => if c = '.' ∨ c = 'e' ∨ c = 'E' then none else some (digitsVal ds, rest)
    | none => some (digitsVal ds, [])

/-- Insert a member into an object under construction: a later duplicate
key overwrites the earlier value (`nlohmann`'s `operator[]` assignment). -/
def insertField (fs : List (String × Json)) (k : String) (v : Json) : List (String × Json) :=
  match fs with
  | [] => [(k, v)]
  | (k', v') :: rest => if k' = k then (k', v) :: rest else (k', v') :: insertField rest k v

mutual
/-- Fueled recursive-descent JSON value parser.  Each recursive entry
consumes one unit of fuel; the top level supplies more fuel than any
input can consume, so fuel exhaustion never rejects an input the
grammar accepts. -/
def parseVal : Nat → List Char → Option (Json × List Char)
  | 0, _ => none
  | fuel + 1, cs =>
    match skipWs cs with
    | [] => none
    | c :: rest =>
      if c = 'n' then
        match rest with
        | 'u' :: 'l' :: 'l' :: r => some (.null, r)
        | _ => none
      else if c = 't' then
        match rest with
        | 'r' :: 'u' :: 'e' :: r => some (.bool true, r)
        | _ => none
      else if c = 'f' then
        match rest with
        | 'a' :: 'l' :: 's' :: 'e' :: r => some (.bool false, r)
        | _ => none
      else if c = '"' then
        match parseStrBody (rest.length + 1) rest with
        | some (content, r) => some (.str (String.mk content), r)
        | none => none
      else if c = '-' then
        match parseNat rest with
        | some (n, r) => some (.num (-(n : Int)), r)
        | none => none
      else if c.isDigit then
        match parseNat (c :: rest) with
        | some (n, r) => some (.num (n : Int), r)
        | none => none
      else if c = '[' then
        let r := skipWs rest
        if r.head? = some ']' then some (.arr [], r.tail)
        else parseElems fuel rest []
      else if c = lbrace then
        let r := skipWs rest
        if r.head? = some rbrace then some (.obj [], r.tail)
        else parseFields fuel rest []
      else none

/-- Parse the remaining elements of a non-empty array. -/
def parseElems : Nat → List Char → List Json → Option (Json × List Char)
  | 0, _, _ => none
  | fuel + 1, cs, acc =>
    match parseVal fuel cs with
    | none => none
    | some (v, r) =>
      let r2 := skipWs r
      if r2.head? = some ',' then parseElems fuel r2.tail (acc ++ [v])
      else if r2.head? = some ']' then some (.arr (acc ++ [v]), r2.tail)
      else none

/-- Parse the remaining members of a non-empty object. -/
def parseFields : Nat → List Char → List (String × Json) → Option (Json × List Char)
  | 0, _, _ => none
  | fuel + 1, cs, acc =>
    let cs2 := skipWs cs
    if cs2.head? = some '"' then
      match parseStrBody (cs2.tail.length + 1) cs2.tail with
      | some (k, r2) =>
        let r3 := skipWs r2
        if r3.head? = some ':' then
          match parseVal fuel r3.tail with
          | some (v, r4) =>
            let acc2 := insertField acc (String.mk k) v
            let r5 := skipWs r4
            if r5.head? = some ',' then parseFields fuel r5.tail acc2
            else if r5.head? = some rbrace then some (.obj acc2, r5.tail)
            else none
          | none => none
        else none
      | none => none
    else none
end

/-- `nlohmann::json::parse` on a string: parse one value and require only
whitespace to remain. -/
def parseJson (s : String) : Option Json :=
  match parseVal (2 * s.data.length + 2) s.data with
  | some (v, r) => if skipWs r = [] then some v else none
  | none => none

mutual
/-- Boolean equality test on JSON values. -/
def jeq : Json → Json → Bool
  | .null, .null => true
  | .bool a, .bool b => a == b
  | .num a, .num b => a == b
  | .str a, .str b => a == b
  | .arr a, .arr b => jeqElems a b
  | .obj a, .obj b => jeqFields a b
  | _, _ => false

/-- Boolean equality on element lists. -/
def jeqElems : List Json → List Json → Bool
  | [], [] => true
  | a :: as, b :: bs => jeq a b && jeqElems as bs
  | _, _ => false

/-- Boolean equality on member lists. -/
def jeqFields : List (String × Json) → List (String × Json) → Bool
  | [], [] => true
  | (k, v) :: as, (k', v') :: bs => k == k' && jeq v v' && jeqFields as bs
  | _, _ => false
end

mutual
theorem jeq_iff : ∀ a b, jeq a b = true ↔ a = b
  | .null, b => by cases b <;> simp [jeq]
  | .bool x, b => by cases b <;> simp [jeq]
  | .num x, b => by cases b <;> simp [jeq]
  | .str x, b => by cases b <;> simp [jeq]
  | .arr xs, b => by
      cases b <;> simp [jeq]
      exact jeqElems_iff xs _
  | .obj fs, b => by
      cases b <;> simp [jeq]
      exact jeqFields_iff fs _

theorem jeqElems_iff : ∀ as bs, jeqElems as bs = true ↔ as = bs
  | [], bs => by cases bs <;> simp [jeqElems]
  | a :: as, bs => by
      cases bs with
      | nil => simp [jeqElems]
      | cons b bs => simp [jeqElems, jeq_iff a b, jeqElems_iff as bs]

theorem jeqFields_iff : ∀ as bs, jeqFields as bs = true ↔ as = bs
  | [], bs => by cases bs <;> simp [jeqFields]
  | (k, v) :: as, bs => by
      cases bs with
      | nil => simp [jeqFields]
      | cons b bs =>
        obtain ⟨k', v'⟩ := b
        simp [jeqFields, jeq_iff v v', jeqFields_iff as bs, and_assoc]
end

instance : DecidableEq Json := fun a b =>
  decidable_of_iff (jeq a b = true) (jeq_iff a b)

theorem charEq_iff_toNat {c d : Char} : c = d ↔ c.toNat = d.toNat := by
  constructor
  · intro h; rw [h]
  · intro h; exact Char.ext (UInt32.ext h)

theorem isDigit_iff {c : Char} : c.isDigit = true ↔ 48 ≤ c.toNat ∧ c.toNat ≤ 57 := by
  simp [Char.isDigit, Char.toNat, UInt32.le_def, BitVec.le_def, UInt32.toNat]

theorem toNat_ofNat_lt {n : Nat} (h : n < 55296) : (Char.ofNat n).toNat = n := by
  simp only [Char.ofNat, Nat.isValidChar]
  rw [dif_pos]
  · rfl
  · exact Or.inl h

theorem toNat_ofNat_hi {n : Nat} (h1 : 57343 < n) (h2 : n < 1114112) :
    (Char.ofNat n).toNat = n := by
  simp only [Char.ofNat, Nat.isValidChar]
  rw [dif_pos]
  · rfl
  · exact Or.inr ⟨h1, h2⟩

theorem natCharsRevAux_irrel : ∀ n f1 f2, n ≤ f1 → n ≤ f2 →
    natCharsRevAux f1 n = natCharsRevAux f2 n := by
  intro n
  induction n using Nat.strong_induction_on with
  | _ n ih =>
    intro f1 f2 h1 h2
    cases f1 with
    | zero =>
      cases f2 with
      | zero => rfl
      | succ g2 =>
        have : n = 0 := by omega
        subst this
        simp [natCharsRevAux]
    | succ g1 =>
      cases f2 with
      | zero =>
        have : n = 0 := by omega
        subst this
        simp [natCharsRevAux]
      | succ g2 =>
        simp only [natCharsRevAux]
        by_cases h : n < 10
        · rw [if_pos h, if_pos h]
        · rw [if_neg h, if_neg h]
          have hlt : n / 10 < n := Nat.div_lt_self (by omega) (by omega)
          rw [ih (n / 10) hlt g1 g2 (by omega) (by omega)]

theorem natCharsRev_eq (n : Nat) : natCharsRev n =
    if n < 10 then [Char.ofNat (48 + n)]
    else Char.ofNat (48 + n % 10) :: natCharsRev (n / 10) := by
  cases n with
  | zero => simp [natCharsRev, natCharsRevAux]
  | succ m =>
    rw [natCharsRev, natCharsRevAux]
    by_cases h : m + 1 < 10
    · rw [if_pos h, if_pos h]
    · rw [if_neg h, if_neg h]
      have hlt : (m + 1) / 10 < m + 1 := Nat.div_lt_self (by omega) (by omega)
      rw [natCharsRev, natCharsRevAux_irrel ((m + 1) / 10) m ((m + 1) / 10) (by omega) (le_refl _)]

theorem natCharsRev_all_digits : ∀ n, ∀ c ∈ natCharsRev n, c.isDigit = true := by
  intro n
  induction n using Nat.strong_induction_on with
  | _ n ih =>
    intro c hc
    rw [natCharsRev_eq] at hc
    by_cases h : n < 10
    · rw [if_pos h] at hc
      simp at hc
      subst hc
      rw [isDigit_iff, toNat_ofNat_lt (by omega)]
      omega
    · rw [if_neg h] at hc
      rcases List.mem_cons.mp hc with h1 | h2
      · subst h1
        rw [isDigit_iff, toNat_ofNat_lt (by omega)]
        have := Nat.mod_lt n (show 0 < 10 by omega)
        omega
      · exact ih (n / 10) (Nat.div_lt_self (by omega) (by omega)) c h2

theorem natChars_ne_nil (n : Nat) : natChars n ≠ [] := by
  rw [natChars, natCharsRev_eq]
  by_cases h : n < 10
  · rw [if_pos h]; simp
  · rw [if_neg h]; simp

theorem natChars_all_digits (n : Nat) : ∀ c ∈ natChars n, c.isDigit = true := by
  intro c hc
  rw [natChars, List.mem_reverse] at hc
  exact natCharsRev_all_digits n c hc

theorem natChars_big (n : Nat) (h : ¬ n < 10) :
    natChars n = natChars (n / 10) ++ [Char.ofNat (48 + n % 10)] := by
  rw [natChars, natChars, natCharsRev_eq, if_neg h]
  simp

theorem digitsVal_append (xs : List Char) (c : Char) :
    digitsVal (xs ++ [c]) = 10 * digitsVal xs + (c.toNat - 48) := by
  rw [digitsVal, digitsVal, List.foldl_append]
  rfl

theorem digitsVal_natChars : ∀ n, digitsVal (natChars n) = n := by
  intro n
  induction n using Nat.strong_induction_on with
  | _ n ih =>
    by_cases h : n < 10
    · rw [natChars, natCharsRev_eq, if_pos h]
      simp [digitsVal, toNat_ofNat_lt (show 48 + n < 55296 by omega)]
    · rw [natChars_big n h, digitsVal_append,
          ih (n / 10) (Nat.div_lt_self (by omega) (by omega)),
          toNat_ofNat_lt (by have := Nat.mod_lt n (show 0 < 10 by omega); omega)]
      have := Nat.mod_lt n (show 0 < 10 by omega)
      omega

theorem natChars_head_zero : ∀ n, (natChars n).head? = some '0' → n = 0 := by
  intro n
  induction n using Nat.strong_induction_on with
  | _ n ih =>
    intro h
    by_cases hn : n < 10
    · rw [natChars, natCharsRev_eq, if_pos hn] at h
      simp at h
      rw [charEq_iff_toNat, toNat_ofNat_lt (by omega)] at h
      have : ('0' : Char).toNat = 48 := by decide
      omega
    · rw [natChars_big n hn] at h
      rcases hne : natChars (n / 10) with _ | ⟨c, t⟩
      · exact absurd hne (natChars_ne_nil _)
      · rw [hne] at h
        simp at h
        have := ih (n / 10) (Nat.div_lt_self (by omega) (by omega))
        rw [hne] at this
        simp at this
        have h10 : n / 10 = 0 := this h
        omega

theorem takeWhile_all_append {p : Char → Bool} : ∀ (l r : List Char),
    (∀ c ∈ l, p c = true) → (∀ c, r.head? = some c → p c = false) →
    (l ++ r).takeWhile p = l := by
  intro l r hl hr
  induction l with
  | nil =>
    simp only [List.nil_append]
    cases r with
    | nil => rfl
    | cons c t => simp [List.takeWhile_cons, hr c rfl]
  | cons c t ih =>
    simp [List.takeWhile_cons, hl c (List.mem_cons_self c t),
      ih (fun x hx => hl x (List.mem_cons_of_mem c hx))]

theorem dropWhile_all_append {p : Char → Bool} : ∀ (l r : List Char),
    (∀ c ∈ l, p c = true) → (∀ c, r.head? = some c → p c = false) →
    (l ++ r).dropWhile p = r := by
  intro l r hl hr
  induction l with
  | nil =>
    simp only [List.nil_append]
    cases r with
    | nil => rfl
    | cons c t => simp [List.dropWhile_cons, hr c rfl]
  | cons c t ih =>
    simp [List.dropWhile_cons, hl c (List.mem_cons_self c t),
      ih (fun x hx => hl x (List.mem_cons_of_mem c hx))]

theorem parseNat_natChars (n : Nat) (rest : List Char)
    (hr : ∀ c, rest.head? = some c → c.isDigit = false ∧ c ≠ '.' ∧ c ≠ 'e' ∧ c ≠ 'E') :
    parseNat (natChars n ++ rest) = some (n, rest) := by
  have htw := takeWhile_all_append (natChars n) rest (natChars_all_digits n)
    (fun c hc => (hr c hc).1)
  have hdw := dropWhile_all_append (natChars n) rest (natChars_all_digits n)
    (fun c hc => (hr c hc).1)
  rw [parseNat]
  simp only [htw, hdw]
  rw [if_neg (natChars_ne_nil n)]
  have hlz : ¬ ((natChars n).head? = some '0' ∧ natChars n ≠ ['0']) := by
    rintro ⟨h1, h2⟩
    have h0 : n = 0 := natChars_head_zero n h1
    subst h0
    exact h2 (by decide)
  rw [if_neg hlz]
  cases rest with
  | nil => simp [digitsVal_natChars]
  | cons c' t =>
    have := hr c' rfl
    simp only [List.head?_cons]
    rw [if_neg (by tauto)]
    simp [digitsVal_natChars]

theorem hexVal_hexDigitChar (n : Nat) (h : n < 16) : hexVal (hexDigitChar n) = some n := by
  interval_cases n <;> decide

theorem unescape1_u00 (a b : Char) (r : List Char) (x y : Nat)
    (hx : hexVal a = some x) (hy : hexVal b = some y)
    (hlo : 16 * x + y < 55296) :
    unescape1 ('u' :: '0' :: '0' :: a :: b :: r) = some (Char.ofNat (16 * x + y), r) := by
  have h0 : hexVal '0' = some 0 := by decide
  simp [unescape1, h0, hx, hy]
  rw [if_neg (by omega), if_neg (by omega)]

theorem psb_cons_lit {c : Char} (h1 : ¬ c = '"') (h2 : ¬ c = '\\') (h3 : ¬ c.toNat < 32)
    (fuel : Nat) (r : List Char) :
    parseStrBody (fuel + 1) (c :: r) = (parseStrBody fuel r).map (fun p => (c :: p.1, p.2)) := by
  rw [parseStrBody]
  rw [if_neg h1, if_neg h2, if_neg h3]

theorem parseStrBody_esc : ∀ (s : List Char) (fuel : Nat) (rest : List Char),
    s.length < fuel →
    parseStrBody fuel (escChars s ++ '"' :: rest) = some (s, rest) := by
  intro s
  induction s with
  | nil =>
    intro fuel rest h
    match fuel, h with
    | f + 1, _ => simp [escChars, parseStrBody]
  | cons c cs ih =>
    intro fuel rest h
    match fuel, h with
    | f + 1, h =>
    have hlen : cs.length < f := by simpa using h
    rw [escChars]
    by_cases h1 : c = '"'
    · subst h1; simp [escChar, parseStrBody, unescape1, ih f rest hlen]
    by_cases h2 : c = '\\'
    · subst h2; simp [escChar, parseStrBody, unescape1, ih f rest hlen]
    by_cases h3 : c = Char.ofNat 8
    · subst h3; simp [escChar, parseStrBody, unescape1, ih f rest hlen]
    by_cases h4 : c = Char.ofNat 9
    · subst h4; simp [escChar, parseStrBody, unescape1, ih f rest hlen]
    by_cases h5 : c = Char.ofNat 10
    · subst h5; simp [escChar, parseStrBody, unescape1, ih f rest hlen]
    by_cases h6 : c = Char.ofNat 12
    · subst h6; simp [escChar, parseStrBody, unescape1, ih f rest hlen]
    by_cases h7 : c = Char.ofNat 13
    · subst h7; simp [escChar, parseStrBody, unescape1, ih f rest hlen]
    by_cases h8 : c.toNat < 32
    · rw [escChar, if_neg h1, if_neg h2, if_neg h3, if_neg h4, if_neg h5, if_neg h6, if_neg h7,
        if_pos h8]
      have hmod : 16 * (c.toNat / 16) + c.toNat % 16 = c.toNat := by omega
      have hu := unescape1_u00 (hexDigitChar (c.toNat / 16)) (hexDigitChar (c.toNat % 16))
        (escChars cs ++ '"' :: rest) (c.toNat / 16) (c.toNat % 16)
        (hexVal_hexDigitChar _ (by omega)) (hexVal_hexDigitChar _ (by omega))
        (by omega)
      rw [hmod, Char.ofNat_toNat] at hu
      simp only [List.cons_append, List.append_assoc]
      rw [parseStrBody]
      rw [if_neg (show ¬('\\' : Char) = '"' by decide), if_pos rfl]
      simp only [List.nil_append]
      rw [hu]
      simp [ih f rest hlen]
    · rw [escChar, if_neg h1, if_neg h2, if_neg h3, if_neg h4, if_neg h5, if_neg h6, if_neg h7,
        if_neg h8]
      simp only [List.singleton_append, List.cons_append, List.nil_append]
      rw [psb_cons_lit h1 h2 h8, ih f rest hlen]
      rfl

/-- The characters that may legally follow a serialised value inside a
larger serialised term: nothing, a comma, or a closing bracket. -/
def okRest : List Char → Prop
  | [] => True
  | c :: _ => c = ',' ∨ c = ']' ∨ c = rbrace

theorem mkData (s : String) : String.mk s.data = s := rfl

theorem escChar_length_pos (c : Char) : 1 ≤ (escChar c).length := by
  rw [escChar]
  split_ifs <;> simp

theorem escChars_length_ge : ∀ s : List Char, s.length ≤ (escChars s).length := by
  intro s
  induction s with
  | nil => simp [escChars]
  | cons c cs ih =>
    rw [escChars]
    simp only [List.length_append, List.length_cons]
    have := escChar_length_pos c
    omega

theorem skipWs_cons {c : Char}
    (h : ¬ (c = ' ' ∨ c = Char.ofNat 9 ∨ c = Char.ofNat 10 ∨ c = Char.ofNat 13))
    (t : List Char) : skipWs (c :: t) = c :: t := by
  rw [skipWs, if_neg h]

inductive HeadClass : Char → Prop
  | kn : HeadClass 'n'
  | kt : HeadClass 't'
  | kf : HeadClass 'f'
  | kq : HeadClass '"'
  | km : HeadClass '-'
  | kd (c : Char) (h : c.isDigit = true) : HeadClass c
  | ka : HeadClass '['
  | ko : HeadClass lbrace

theorem headClass_not_ws {c : Char} (h : HeadClass c) :
    ¬ (c = ' ' ∨ c = Char.ofNat 9 ∨ c = Char.ofNat 10 ∨ c = Char.ofNat 13) := by
  cases h with
  | kd c hd =>
    rw [isDigit_iff] at hd
    simp only [charEq_iff_toNat]
    have : (' ' : Char).toNat = 32 ∧ (Char.ofNat 9).toNat = 9 ∧ (Char.ofNat 10).toNat = 10 ∧
        (Char.ofNat 13).toNat = 13 := by decide
    omega
  | _ => decide

theorem headClass_ne_close {c : Char} (h : HeadClass c) :
    c ≠ ']' ∧ c ≠ rbrace ∧ c ≠ ',' := by
  cases h with
  | kd c hd =>
    rw [isDigit_iff] at hd
    simp only [ne_eq, charEq_iff_toNat]
    have : (']' : Char).toNat = 93 ∧ (rbrace : Char).toNat = 125 ∧ (',' : Char).toNat = 44 := by
      decide
    omega
  | _ => decide

theorem dump_head_cases : ∀ v : Json, ∃ c t, dumpChars v = c :: t ∧ HeadClass c := by
  intro v
  cases v with
  | null => exact ⟨'n', _, rfl, .kn⟩
  | bool b =>
    cases b
    · exact ⟨'f', _, rfl, .kf⟩
    · exact ⟨'t', _, rfl, .kt⟩
  | num n =>
    simp only [dumpChars, intChars]
    by_cases hn : n < 0
    · rw [if_pos hn]
      exact ⟨'-', _, rfl, .km⟩
    · rw [if_neg hn]
      rcases hne : natChars n.toNat with _ | ⟨c, t⟩
      · exact absurd hne (natChars_ne_nil _)
      · refine ⟨c, t, rfl, .kd c ?_⟩
        exact natChars_all_digits _ c (by rw [hne]; exact List.mem_cons_self c t)
  | str s => exact ⟨'"', _, rfl, .kq⟩
  | arr es => exact ⟨'[', _, rfl, .ka⟩
  | obj fs => exact ⟨lbrace, _, rfl, .ko⟩

theorem okRest_head {rest : List Char} (h : okRest rest) :
    ∀ c, rest.head? = some c → c.isDigit = false ∧ c ≠ '.' ∧ c ≠ 'e' ∧ c ≠ 'E' := by
  intro c hc
  cases rest with
  | nil => simp at hc
  | cons c' t =>
    simp only [List.head?_cons, Option.some.injEq] at hc
    subst hc
    have h' : c' = ',' ∨ c' = ']' ∨ c' = rbrace := h
    rcases h' with h' | h' | h' <;> subst h' <;>
      exact ⟨by decide, by decide, by decide, by decide⟩

theorem okRest_skipWs {rest : List Char} (h : okRest rest) : skipWs rest = rest := by
  cases rest with
  | nil => rfl
  | cons c t =>
    have h' : c = ',' ∨ c = ']' ∨ c = rbrace := h
    rcases h' with h' | h' | h' <;> subst h' <;> exact skipWs_cons (by decide) t

theorem jsize_pos : ∀ v : Json, 1 ≤ jsize v := by
  intro v
  cases v <;> simp [jsize]

theorem insertField_notMem : ∀ (acc : List (String × Json)) (k : String) (v : Json),
    k ∉ acc.map Prod.fst → insertField acc k v = acc ++ [(k, v)] := by
  intro acc k v h
  induction acc with
  | nil => rfl
  | cons p t ih =>
    obtain ⟨k', v'⟩ := p
    simp only [List.map_cons, List.mem_cons] at h
    push_neg at h
    rw [insertField, if_neg (Ne.symm h.1)]
    simp [ih h.2]

theorem digit_not_kw {c : Char} (h : c.isDigit = true) :
    ¬ c = 'n' ∧ ¬ c = 't' ∧ ¬ c = 'f' ∧ ¬ c = '"' ∧ ¬ c = '-' := by
  rw [isDigit_iff] at h
  simp only [charEq_iff_toNat]
  have : ('n' : Char).toNat = 110 ∧ ('t' : Char).toNat = 116 ∧ ('f' : Char).toNat = 102 ∧
      ('"' : Char).toNat = 34 ∧ ('-' : Char).toNat = 45 := by decide
  omega

theorem parseVal_succ_null (f : Nat) (r : List Char) :
    parseVal (f + 1) ('n' :: 'u' :: 'l' :: 'l' :: r) = some (.null, r) := by
  simp [parseVal, skipWs]

theorem parseVal_succ_true (f : Nat) (r : List Char) :
    parseVal (f + 1) ('t' :: 'r' :: 'u' :: 'e' :: r) = some (.bool true, r) := by
  simp [parseVal, skipWs]

theorem parseVal_succ_false (f : Nat) (r : List Char) :
    parseVal (f + 1) ('f' :: 'a' :: 'l' :: 's' :: 'e' :: r) = some (.bool false, r) := by
  simp [parseVal, skipWs]

theorem parseVal_succ_quote (f : Nat) (r : List Char) :
    parseVal (f + 1) ('"' :: r) =
      match parseStrBody (r.length + 1) r with
      | some (content, rr) => some (.str (String.mk content), rr)
      | none => none := by
  simp [parseVal, skipWs]

theorem parseVal_succ_minus (f : Nat) (r : List Char) :
    parseVal (f + 1) ('-' :: r) =
      match parseNat r with
      | some (n, rr) => some (.num (-(n : Int)), rr)
      | none => none := by
  simp [parseVal, skipWs]

theorem parseVal_succ_digit {c : Char} (hcd : c.isDigit = true) (f : Nat) (r : List Char) :
    parseVal (f + 1) (c :: r) =
      match parseNat (c :: r) with
      | some (n, rr) => some (.num ((n : Nat) : Int), rr)
      | none => none := by
  obtain ⟨h1, h2, h3, h4, h5⟩ := digit_not_kw hcd
  rw [parseVal, skipWs_cons (headClass_not_ws (.kd c hcd))]
  dsimp only
  rw [if_neg h1, if_neg h2, if_neg h3, if_neg h4, if_neg h5, if_pos hcd]

theorem parseVal_succ_lbrack (f : Nat) (r : List Char) :
    parseVal (f + 1) ('[' :: r) =
      (if (skipWs r).head? = some ']' then some (.arr [], (skipWs r).tail)
       else parseElems f r []) := by
  simp [parseVal, skipWs]

theorem parseVal_succ_lbrace (f : Nat) (r : List Char) :
    parseVal (f + 1) (lbrace :: r) =
      (if (skipWs r).head? = some rbrace then some (.obj [], (skipWs r).tail)
       else parseFields f r []) := by
  rw [parseVal, skipWs_cons (by decide)]
  dsimp only
  rw [if_neg (by decide), if_neg (by decide), if_neg (by decide), if_neg (by decide),
    if_neg (by decide), if_neg (by decide), if_neg (by decide), if_pos rfl]

theorem parseVal_dump_all : ∀ fuel : Nat,
    (∀ v rest, JsonWF v → jsize v ≤ fuel → okRest rest →
      parseVal fuel (dumpChars v ++ rest) = some (v, rest)) ∧
    (∀ es acc rest, JsonWFElems es → es ≠ [] → jsizeElems es ≤ fuel → okRest rest →
      parseElems fuel (dumpElems es ++ ']' :: rest) acc = some (.arr (acc ++ es), rest)) ∧
    (∀ fs acc rest, JsonWFFields fs → ((acc ++ fs).map Prod.fst).Nodup → fs ≠ [] →
      jsizeFields fs ≤ fuel → okRest rest →
      parseFields fuel (dumpFields fs ++ rbrace :: rest) acc = some (.obj (acc ++ fs), rest)) := by
  intro fuel
  induction fuel with
  | zero =>
    refine ⟨fun v rest hwf hsz => absurd hsz (by have := jsize_pos v; omega), ?_, ?_⟩
    · rintro (_ | ⟨e, es⟩) acc rest hwf hne hsz hrest
      · exact absurd rfl hne
      · rw [jsizeElems] at hsz
        have := jsize_pos e
        omega
    · rintro (_ | ⟨⟨k, v⟩, fs⟩) acc rest hwf hnd hne hsz hrest
      · exact absurd rfl hne
      · rw [jsizeFields] at hsz
        have := jsize_pos v
        omega
  | succ f ih =>
    obtain ⟨ihV, ihE, ihF⟩ := ih
    refine ⟨?_, ?_, ?_⟩
    · -- values
      intro v rest hwf hsz hrest
      cases v with
      | null => exact parseVal_succ_null f rest
      | bool b => cases b
                  · exact parseVal_succ_false f rest
                  · exact parseVal_succ_true f rest
      | num n =>
        simp only [dumpChars, intChars]
        by_cases hn : n < 0
        · rw [if_pos hn, List.cons_append, parseVal_succ_minus,
            parseNat_natChars n.natAbs rest (okRest_head hrest)]
          have hneg : -((n.natAbs : Nat) : Int) = n := by omega
          dsimp only
          rw [hneg]
        · rw [if_neg hn]
          rcases hne : natChars n.toNat with _ | ⟨c, t⟩
          · exact absurd hne (natChars_ne_nil _)
          have hcd : c.isDigit = true :=
            natChars_all_digits _ c (by rw [hne]; exact List.mem_cons_self c t)
          rw [List.cons_append, parseVal_succ_digit hcd,
            show c :: (t ++ rest) = natChars n.toNat ++ rest by rw [hne]; rfl,
            parseNat_natChars n.toNat rest (okRest_head hrest)]
          have hpos : ((n.toNat : Nat) : Int) = n := by omega
          dsimp only
          rw [hpos]
      | str s =>
        simp only [dumpChars]
        rw [List.cons_append, parseVal_succ_quote]
        have hlen : s.data.length < (escChars s.data ++ ['"'] ++ rest).length + 1 := by
          have := escChars_length_ge s.data
          simp only [List.length_append]
          omega
        rw [show (escChars s.data ++ ['"']) ++ rest = escChars s.data ++ '"' :: rest by
          simp]
        rw [parseStrBody_esc s.data _ rest (by
          have := escChars_length_ge s.data
          simp only [List.length_append, List.length_cons]
          omega)]
      | arr es =>
        cases es with
        | nil =>
          simp only [dumpChars, dumpElems]
          rw [List.cons_append, parseVal_succ_lbrack]
          simp [skipWs_cons (show ¬ ((']':Char) = ' ' ∨ (']':Char) = Char.ofNat 9 ∨
            (']':Char) = Char.ofNat 10 ∨ (']':Char) = Char.ofNat 13) by decide)]
        | cons e es' =>
          obtain ⟨c, t, hdc, hcls⟩ := dump_head_cases e
          obtain ⟨X, hX⟩ : ∃ X, dumpElems (e :: es') = dumpChars e ++ X := by
            cases es' with
            | nil => exact ⟨[], by simp [dumpElems]⟩
            | cons a b => exact ⟨_, rfl⟩
          have hwfe : JsonWFElems (e :: es') := hwf
          have hsze : jsizeElems (e :: es') ≤ f := by
            have : jsize (.arr (e :: es')) = 1 + jsizeElems (e :: es') := rfl
            omega
          simp only [dumpChars]
          rw [List.cons_append, parseVal_succ_lbrack]
          have hhead : (dumpElems (e :: es') ++ ']' :: rest) = c :: (t ++ X.tail ++ ']' :: rest)
              ∨ True := Or.inr trivial
          rw [hX, hdc]
          simp only [List.cons_append, List.append_assoc]
          rw [skipWs_cons (headClass_not_ws hcls)]
          rw [if_neg (by
            simp only [List.head?_cons, Option.some.injEq]
            exact (headClass_ne_close hcls).1)]
          have := ihE (e :: es') [] rest hwfe (by simp) hsze hrest
          rw [hX, hdc] at this
          simp only [List.cons_append, List.append_assoc] at this
          simpa using this
      | obj fs =>
        cases fs with
        | nil =>
          simp only [dumpChars, dumpFields]
          rw [List.cons_append, parseVal_succ_lbrace]
          simp only [List.nil_append, List.singleton_append]
          rw [skipWs_cons (show ¬ (rbrace = ' ' ∨ rbrace = Char.ofNat 9 ∨
            rbrace = Char.ofNat 10 ∨ rbrace = Char.ofNat 13) by decide)]
          simp
        | cons kv fs' =>
          obtain ⟨k, v⟩ := kv
          have hwff : JsonWFFields ((k, v) :: fs') := hwf.2
          have hnd : (((k, v) :: fs').map Prod.fst).Nodup := hwf.1
          have hszf : jsizeFields ((k, v) :: fs') ≤ f := by
            have : jsize (.obj ((k, v) :: fs')) = 1 + jsizeFields ((k, v) :: fs') := rfl
            omega
          obtain ⟨X, hX⟩ : ∃ X, dumpFields ((k, v) :: fs') = '"' :: X := by
            cases fs' <;> exact ⟨_, rfl⟩
          simp only [dumpChars]
          rw [List.cons_append, parseVal_succ_lbrace]
          rw [hX]
          simp only [List.cons_append]
          rw [skipWs_cons (by decide)]
          rw [if_neg (by
            simp only [List.head?_cons, Option.some.injEq]
            decide)]
          have := ihF ((k, v) :: fs') [] rest hwff (by simpa using hnd) (by simp) hszf hrest
          rw [hX] at this
          simp only [List.cons_append, List.nil_append, List.append_assoc,
            List.singleton_append] at this ⊢
          exact this
    · -- elements
      intro es acc rest hwf hne hsz hrest
      cases es with
      | nil => exact absurd rfl hne
      | cons e es' =>
        have hwfe : JsonWF e := hwf.1
        rw [parseElems]
        cases es' with
        | nil =>
          simp only [dumpElems]
          rw [ihV e (']' :: rest) hwfe
            (by rw [jsizeElems, jsizeElems] at hsz; omega)
            (Or.inr (Or.inl rfl))]
          dsimp only
          rw [skipWs_cons (by decide)]
          simp only [List.head?_cons, List.tail_cons]
          rw [if_neg (by simp), if_pos trivial]
        | cons e2 es'' =>
          simp only [dumpElems]
          rw [List.append_assoc, List.cons_append]
          rw [ihV e (',' :: (dumpElems (e2 :: es'') ++ ']' :: rest)) hwfe
            (by rw [jsizeElems] at hsz; omega) (Or.inl rfl)]
          dsimp only
          rw [skipWs_cons (by decide)]
          simp only [List.head?_cons, List.tail_cons]
          first
          | rw [if_pos trivial]
          | rw [if_pos rfl]
          have := ihE (e2 :: es'') (acc ++ [e]) rest hwf.2 (by simp)
            (by rw [jsizeElems] at hsz; omega) hrest
          simp only [List.append_assoc, List.cons_append, List.nil_append] at this ⊢
          rw [this]
    · -- fields
      intro fs acc rest hwf hnd hne hsz hrest
      cases fs with
      | nil => exact absurd rfl hne
      | cons kv fs' =>
        obtain ⟨k, v⟩ := kv
        have hwfv : JsonWF v := hwf.1
        have hknotin : k ∉ acc.map Prod.fst := by
          intro hmem
          have : ¬ (acc.map Prod.fst ++ (((k, v) :: fs').map Prod.fst)).Nodup → True := fun _ => trivial
          rw [List.map_append] at hnd
          have := (List.nodup_append.mp hnd).2.2
          exact this hmem (by simp)
        rw [parseFields]
        have hklen : ∀ T : List Char, k.data.length <
            (escChars k.data ++ '"' :: T).length + 1 := by
          intro T
          have := escChars_length_ge k.data
          simp only [List.length_append, List.length_cons]
          omega
        have hacc : insertField acc (String.mk k.data) v = acc ++ [(k, v)] := by
          rw [mkData]
          refine insertField_notMem acc k v ?_
          intro hmem
          rw [List.map_append] at hnd
          exact (List.nodup_append.mp hnd).2.2 hmem (by simp)
        cases fs' with
        | nil =>
          have hshape : dumpFields [(k, v)] ++ rbrace :: rest =
              '"' :: (escChars k.data ++ '"' :: (':' :: (dumpChars v ++ rbrace :: rest))) := by
            simp [dumpFields]
          rw [hshape, skipWs_cons (by decide)]
          simp only [List.head?_cons, List.tail_cons]
          first
          | rw [if_pos trivial]
          | rw [if_pos rfl]
          try simp only [List.tail_cons]
          rw [parseStrBody_esc k.data _ _ (hklen _)]
          dsimp only
          rw [skipWs_cons (by decide)]
          simp only [List.head?_cons, List.tail_cons]
          first
          | rw [if_pos trivial]
          | rw [if_pos rfl]
          try simp only [List.tail_cons]
          rw [ihV v (rbrace :: rest) hwfv (by rw [jsizeFields, jsizeFields] at hsz; omega)
            (Or.inr (Or.inr rfl))]
          dsimp only
          rw [hacc, @okRest_skipWs (rbrace :: rest) (Or.inr (Or.inr rfl))]
          simp only [List.head?_cons, List.tail_cons]
          rw [if_neg (by decide)]
          simp
        | cons f2 fs'' =>
          have hshape : dumpFields ((k, v) :: f2 :: fs'') ++ rbrace :: rest =
              '"' :: (escChars k.data ++ '"' :: (':' :: (dumpChars v ++
                ',' :: (dumpFields (f2 :: fs'') ++ rbrace :: rest)))) := by
            simp [dumpFields]
          rw [hshape, skipWs_cons (by decide)]
          simp only [List.head?_cons, List.tail_cons]
          first
          | rw [if_pos trivial]
          | rw [if_pos rfl]
          try simp only [List.tail_cons]
          rw [parseStrBody_esc k.data _ _ (hklen _)]
          dsimp only
          rw [skipWs_cons (by decide)]
          simp only [List.head?_cons, List.tail_cons]
          first
          | rw [if_pos trivial]
          | rw [if_pos rfl]
          try simp only [List.tail_cons]
          rw [ihV v (',' :: (dumpFields (f2 :: fs'') ++ rbrace :: rest)) hwfv
            (by rw [jsizeFields] at hsz; omega) (Or.inl rfl)]
          dsimp only
          rw [hacc, @okRest_skipWs (',' :: (dumpFields (f2 :: fs'') ++ rbrace :: rest)) (Or.inl rfl)]
          simp only [List.head?_cons, List.tail_cons]
          first
          | rw [if_pos trivial]
          | rw [if_pos rfl]
          have hnd2 : (((acc ++ [(k, v)]) ++ (f2 :: fs'')).map Prod.fst).Nodup := by
            simpa using hnd
          have := ihF (f2 :: fs'') (acc ++ [(k, v)]) rest hwf.2 hnd2 (by simp)
            (by rw [jsizeFields] at hsz; omega) hrest
          rw [this]
          simp

theorem intChars_ne_nil (n : Int) : intChars n ≠ [] := by
  rw [intChars]
  split_ifs
  · simp
  · exact natChars_ne_nil _

mutual
theorem jsize_le_dump : ∀ v : Json, jsize v ≤ (dumpChars v).length
  | .null => by simp [jsize, dumpChars]
  | .bool b => by cases b <;> simp [jsize, dumpChars]
  | .num n => by
    have h := intChars_ne_nil n
    have : 1 ≤ (intChars n).length := by
      cases hn : intChars n
      · exact absurd hn h
      · simp
    simpa [jsize, dumpChars] using this
  | .str s => by simp [jsize, dumpChars]
  | .arr es => by
    have := jsizeElems_le_dump es
    simp only [jsize, dumpChars, List.length_cons, List.length_append, List.length_singleton]
    omega
  | .obj fs => by
    have := jsizeFields_le_dump fs
    simp only [jsize, dumpChars, List.length_cons, List.length_append, List.length_singleton]
    omega

theorem jsizeElems_le_dump : ∀ es : List Json, jsizeElems es ≤ (dumpElems es).length + 1
  | [] => by simp [jsizeElems, dumpElems]
  | [v] => by
    have := jsize_le_dump v
    simp only [jsizeElems, dumpElems]
    omega
  | v :: w :: r => by
    have h1 := jsize_le_dump v
    have h2 := jsizeElems_le_dump (w :: r)
    rw [jsizeElems] at h2
    simp only [jsizeElems, dumpElems, List.length_append, List.length_cons]
    omega

theorem jsizeFields_le_dump : ∀ fs : List (String × Json),
    jsizeFields fs ≤ (dumpFields fs).length + 1
  | [] => by simp [jsizeFields, dumpFields]
  | [(k, v)] => by
    have := jsize_le_dump v
    simp only [jsizeFields, dumpFields, List.length_cons, List.length_append]
    omega
  | (k, v) :: f :: r => by
    have h1 := jsize_le_dump v
    have h2 := jsizeFields_le_dump (f :: r)
    rw [jsizeFields] at h2
    simp only [jsizeFields, dumpFields, List.length_append, List.length_cons]
    omega
end

/-- Serialising a well-formed JSON value and parsing it back yields the
value again: `dump` output always re-parses. -/
theorem parseJson_dumpJson {v : Json} (h : JsonWF v) : parseJson (dumpJson v) = some v := by
  rw [parseJson, dumpJson]
  have hdata : (String.mk (dumpChars v)).data = dumpChars v := rfl
  rw [hdata]
  have hsz : jsize v ≤ 2 * (dumpChars v).length + 2 := by
    have := jsize_le_dump v
    omega
  have := (parseVal_dump_all (2 * (dumpChars v).length + 2)).1 v [] h hsz trivial
  rw [List.append_nil] at this
  rw [this]
  rfl

theorem JsonWFElems_append {es : List Json} {v : Json}
    (h1 : JsonWFElems es) (h2 : JsonWF v) : JsonWFElems (es ++ [v]) := by
  induction es with
  | nil => exact ⟨h2, trivial⟩
  | cons e t ih => exact ⟨h1.1, ih h1.2⟩

theorem insertField_keys_sub : ∀ (fs : List (String × Json)) (k : String) (v : Json),
    (insertField fs k v).map Prod.fst = fs.map Prod.fst ∨
    (insertField fs k v).map Prod.fst = fs.map Prod.fst ++ [k] := by
  intro fs k v
  induction fs with
  | nil => simp [insertField]
  | cons p t ih =>
    obtain ⟨k', v'⟩ := p
    rw [insertField]
    by_cases hk : k' = k
    · rw [if_pos hk]
      left
      simp
    · rw [if_neg hk]
      rcases ih with ih | ih
      · left; simp [ih]
      · right; simp [ih]

theorem insertField_keys_nodup {fs : List (String × Json)} {k : String} {v : Json}
    (h : (fs.map Prod.fst).Nodup) : ((insertField fs k v).map Prod.fst).Nodup := by
  induction fs with
  | nil => simp [insertField]
  | cons p t ih =>
    obtain ⟨k', v'⟩ := p
    rw [insertField]
    by_cases hk : k' = k
    · rw [if_pos hk]
      simpa using h
    · rw [if_neg hk]
      simp only [List.map_cons, List.nodup_cons] at h ⊢
      refine ⟨?_, ih h.2⟩
      intro hmem
      rcases insertField_keys_sub t k v with hs | hs
      · rw [hs] at hmem
        exact h.1 hmem
      · rw [hs] at hmem
        rcases List.mem_append.mp hmem with hm | hm
        · exact h.1 hm
        · simp at hm
          exact hk hm

theorem insertField_wf {fs : List (String × Json)} {k : String} {v : Json}
    (h1 : JsonWFFields fs) (h2 : JsonWF v) : JsonWFFields (insertField fs k v) := by
  induction fs with
  | nil => exact ⟨h2, trivial⟩
  | cons p t ih =>
    obtain ⟨k', v'⟩ := p
    rw [insertField]
    by_cases hk : k' = k
    · rw [if_pos hk]
      exact ⟨h2, h1.2⟩
    · rw [if_neg hk]
      exact ⟨h1.1, ih h1.2⟩

theorem parse_wf_all : ∀ fuel : Nat,
    (∀ cs v r, parseVal fuel cs = some (v, r) → JsonWF v) ∧
    (∀ cs acc v r, JsonWFElems acc → parseElems fuel cs acc = some (v, r) → JsonWF v) ∧
    (∀ cs acc v r, JsonWFFields acc → ((acc.map Prod.fst).Nodup) →
      parseFields fuel cs acc = some (v, r) → JsonWF v) := by
  intro fuel
  induction fuel with
  | zero =>
    refine ⟨?_, ?_, ?_⟩
    · intro cs v r h; simp [parseVal] at h
    · intro cs acc v r _ h; simp [parseElems] at h
    · intro cs acc v r _ _ h; simp [parseFields] at h
  | succ f ih =>
    obtain ⟨ihV, ihE, ihF⟩ := ih
    refine ⟨?_, ?_, ?_⟩
    · intro cs v r h
      rw [parseVal] at h
      rcases hsw : skipWs cs with _ | ⟨c, rest⟩ <;> rw [hsw] at h
      · exact absurd h (by simp)
      dsimp only at h
      split_ifs at h with h1 h2 h3 h4 h5 h6 h7 h8 h9 h10
      all_goals try exact Option.noConfusion h
      all_goals try exact ihE rest [] v r trivial h
      all_goals try exact ihF rest [] v r trivial List.nodup_nil h
      all_goals try (split at h <;>
        first
          | exact Option.noConfusion h
          | (simp only [Option.some.injEq, Prod.mk.injEq] at h
             obtain ⟨rfl, rfl⟩ := h
             simp [JsonWF, JsonWFElems, JsonWFFields]))
      all_goals
        simp only [Option.some.injEq, Prod.mk.injEq] at h
        obtain ⟨rfl, rfl⟩ := h
        simp [JsonWF, JsonWFElems, JsonWFFields]
    · intro cs acc v r hacc h
      rw [parseElems] at h
      rcases hpv : parseVal f cs with _ | ⟨v', r'⟩ <;> rw [hpv] at h
      · exact absurd h (by simp)
      have hwv : JsonWF v' := ihV cs v' r' hpv
      dsimp only at h
      split_ifs at h with hc1 hc2
      · exact ihE _ (acc ++ [v']) v r (JsonWFElems_append hacc hwv) h
      · obtain ⟨rfl, rfl⟩ : v = .arr (acc ++ [v']) ∧ r = (skipWs r').tail := by
          simpa using h.symm
        exact JsonWFElems_append hacc hwv
    · intro cs acc v r hacc hnd h
      rw [parseFields] at h
      dsimp only at h
      split_ifs at h with hc1
      · rcases hps : parseStrBody ((skipWs cs).tail.length + 1) (skipWs cs).tail
            with _ | ⟨k, r2⟩ <;> rw [hps] at h
        · exact absurd h (by simp)
        dsimp only at h
        split_ifs at h with hc2
        · rcases hpv : parseVal f (skipWs r2).tail with _ | ⟨v', r4⟩ <;> rw [hpv] at h
          · exact absurd h (by simp)
          have hwv : JsonWF v' := ihV _ v' r4 hpv
          dsimp only at h
          have hstep : ∀ r5, parseFields f r5 (insertField acc (String.mk k) v') =
              some (v, r) → JsonWF v :=
            fun r5 hh =>
              ihF r5 _ v r (insertField_wf hacc hwv) (insertField_keys_nodup hnd) hh
          split_ifs at h with hc3 hc4
          all_goals try exact Option.noConfusion h
          all_goals try exact hstep _ h
          all_goals
            obtain ⟨rfl, rfl⟩ : v = .obj (insertField acc (String.mk k) v') ∧
                r = (skipWs r4).tail := by simpa using h.symm
            exact ⟨insertField_keys_nodup hnd, insertField_wf hacc hwv⟩

/-- Values extracted from a well-formed object are well formed. -/
theorem JsonWF_lookup : ∀ (fs : List (String × Json)) (k : String) (v : Json),
    JsonWFFields fs → fs.lookup k = some v → JsonWF v := by
  intro fs k v hwf hl
  induction fs with
  | nil => simp [List.lookup] at hl
  | cons p t ih =>
    obtain ⟨k', v'⟩ := p
    rw [List.lookup] at hl
    by_cases hk : k = k'
    · have hb : (k == k') = true := by simpa using hk
      rw [hb] at hl
      dsimp only at hl
      obtain rfl : v' = v := by simpa using hl
      exact hwf.1
    · have hb : (k == k') = false := by simpa using hk
      rw [hb] at hl
      dsimp only at hl
      exact ih hwf.2 hl

/-- Elements of a well-formed array are well formed. -/
theorem JsonWF_elem : ∀ (es : List Json) (v : Json),
    JsonWFElems es → v ∈ es → JsonWF v := by
  intro es v hwf hm
  induction es with
  | nil => simp at hm
  | cons e t ih =>
    rcases List.mem_cons.mp hm with rfl | hm
    · exact hwf.1
    · exact ih hwf.2 hm

/-- Whatever `parseJson` returns is well formed. -/
theorem parseJson_wf {s : String} {v : Json} (h : parseJson s = some v) : JsonWF v := by
  rw [parseJson] at h
  rcases hp : parseVal (2 * s.data.length + 2) s.data with _ | ⟨v', r⟩ <;> rw [hp] at h
  · exact absurd h (by simp)
  · have := (parse_wf_all (2 * s.data.length + 2)).1 s.data v' r hp
    dsimp only at h
    split_ifs at h
    · obtain rfl : v' = v := by simpa using h
      exact this

/-- A parsed tool call: the `ToolCall` struct of `tool_calling.cpp` (a
tool name and the arguments serialised back to a JSON string). -/
structure ToolCall where
  tool_name : String
  parameters_json : String
deriving DecidableEq, Repr

/-- Is this lookup result a JSON array (`is_array()` after `contains`)? -/
def isArrOpt : Option Json → Bool
  | some (.arr _) => true
  | _ => false

/-- Brace-matched extraction worker of `extract_json` in
`parse_tool_calls` (`tool_calling.cpp` lines 59-91): walks the
characters tracking brace depth, string literals and `\\` escapes, and
returns the consumed slice once the depth returns to zero.  Returning
`none` models the C++ lambda returning the empty string. -/
def extractGo : List Char → Nat → Bool → Bool → List Char → Option (List Char)
  | [], _, _, _, _ => none
  | c :: rest, braces, inStr, esc, acc =>
    if esc then extractGo rest braces inStr false (acc ++ [c])
    else if c = '\\' ∧ inStr then extractGo rest braces inStr true (acc ++ [c])
    else if c = '"' then extractGo rest braces (!inStr) false (acc ++ [c])
    else if ¬ inStr ∧ c = lbrace then extractGo rest (braces + 1) inStr false (acc ++ [c])
    else if ¬ inStr ∧ c = rbrace then
      if braces = 1 then some (acc ++ [c])
      else extractGo rest (braces - 1) inStr false (acc ++ [c])
    else extractGo rest braces inStr false (acc ++ [c])

/-- `extract_json(str, start_pos)` applied to the suffix starting at the
candidate position: requires a leading brace. -/
def extractJson (cs : List Char) : Option (List Char) :=
  match cs with
  | c :: _ => if c = lbrace then extractGo cs 0 false false [] else none
  | [] => none

/-- The loop over the `tool_calls` array (`tool_calling.cpp` lines
104-111): pushes a `ToolCall` for every element carrying `name` and
`parameters`; a non-string `name` makes `get<std::string>()` throw,
which keeps the calls pushed so far but aborts the loop (the `Bool`
result is false exactly when the loop threw, in which case the `break`
below it is never reached). -/
def processCalls : List Json → List ToolCall × Bool
  | [] => ([], true)
  | call :: rest =>
    if jContains call "name" ∧ jContains call "parameters" then
      match objLookup call "name" with
      | some (.str s) =>
        let r := processCalls rest
        (⟨s, dumpJson ((objLookup call "parameters").getD .null)⟩ :: r.1, r.2)
      | _ => ([], false)
    else processCalls rest

/-- Handling of one successfully parsed JSON object in the scan of
`parse_tool_calls` (`tool_calling.cpp` lines 100-123): the
`tool_calls`-array envelope, then the direct single-call form, else
nothing.  The `Bool` is true when the code executed `break`. -/
def envelopeStep (j : Json) (acc : List ToolCall) : List ToolCall × Bool :=
  if jContains j "tool_calls" && isArrOpt (objLookup j "tool_calls") then
    let calls := match objLookup j "tool_calls" with
      | some (.arr cs) => cs
      | _ => []
    let r := processCalls calls
    (acc ++ r.1, r.2)
  else if jContains j "name" && jContains j "parameters" then
    match objLookup j "name" with
    | some (.str s) => (acc ++ [⟨s, dumpJson ((objLookup j "parameters").getD .null)⟩], true)
    | _ => (acc, false)
  else (acc, false)

/-- One candidate position of the scan loop of `parse_tool_calls`
(`tool_calling.cpp` lines 94-130): positions that do not hold `{` are
skipped (the C++ `find` jumps straight to them), extraction and JSON
parsing failures are silently ignored, and once the code has executed
`break` the remaining positions do nothing. -/
def scanStep (text : List Char) (st : List ToolCall × Bool) (p : Nat) :
    List ToolCall × Bool :=
  if st.2 then st
  else
    match text.drop p with
    | c :: _ =>
      if c = lbrace then
        match extractJson (text.drop p) with
        | some slice =>
          match parseJson (String.mk slice) with
          | some j => envelopeStep j st.1
          | none => st
        | none => st
      else st
    | [] => st

/-- `parse_tool_calls` of `tool_calling.cpp`: scan the model output
left to right for brace-matched JSON objects and collect tool calls
from the first object that matches an envelope form. -/
def parse_tool_calls (text : String) : List ToolCall :=
  ((List.range text.data.length).foldl (scanStep text.data) ([], false)).1

/-- Does the parsed object match either call envelope of the protocol? -/
def isEnvelopeJson (j : Json) : Bool :=
  (jContains j "tool_calls" && isArrOpt (objLookup j "tool_calls")) ||
  (jContains j "name" && jContains j "parameters")

/-- Is there a brace-matched JSON object at position `p` that parses as
either call envelope? -/
def envelopeAt (text : List Char) (p : Nat) : Bool :=
  match text.drop p with
  | c :: _ =>
    if c = lbrace then
      match extractJson (text.drop p) with
      | some slice =>
        match parseJson (String.mk slice) with
        | some j => isEnvelopeJson j
        | none => false
      | none => false
    else false
  | [] => false

/-- Does any position of the text hold a brace-matched JSON object that
parses as either call envelope? -/
def hasEnvelope (text : String) : Bool :=
  (List.range text.data.length).any (envelopeAt text.data)

theorem envelopeStep_not {j : Json} (hj : isEnvelopeJson j = false) (acc : List ToolCall) :
    envelopeStep j acc = (acc, false) := by
  rw [isEnvelopeJson, Bool.or_eq_false_iff] at hj
  rw [envelopeStep, if_neg (by simp [hj.1]), if_neg (by simp [hj.2])]

theorem scanStep_not {text : List Char} {p : Nat} (hp : envelopeAt text p = false)
    (acc : List ToolCall) : scanStep text (acc, false) p = (acc, false) := by
  rw [scanStep, if_neg (by simp)]
  rw [envelopeAt] at hp
  split
  · rename_i c tail heq
    rw [heq] at hp ⊢
    dsimp only at hp
    by_cases hc : c = lbrace
    · rw [if_pos hc] at hp ⊢
      rcases he : extractJson (c :: tail) with _ | ⟨slice⟩ <;> rw [he] at hp
      all_goals try rfl
      dsimp only at hp ⊢
      rcases hj : parseJson (String.mk slice) with _ | ⟨j⟩ <;> rw [hj] at hp
      all_goals try rfl
      dsimp only at hp ⊢
      exact envelopeStep_not hp acc
    · rw [if_neg hc]
  · rfl

/-- The predicate maintained for every pushed tool call: its argument
string is the serialisation of some well-formed JSON value. -/
def GoodTc (tc : ToolCall) : Prop :=
  ∃ v, JsonWF v ∧ tc.parameters_json = dumpJson v

theorem wf_objLookup {j : Json} {k : String} {v : Json}
    (hwf : JsonWF j) (h : objLookup j k = some v) : JsonWF v := by
  cases j with
  | obj fs => exact JsonWF_lookup fs k v hwf.2 h
  | null => simp [objLookup] at h
  | bool b => simp [objLookup] at h
  | num n => simp [objLookup] at h
  | str s => simp [objLookup] at h
  | arr es => simp [objLookup] at h

theorem processCalls_good : ∀ (calls : List Json), JsonWFElems calls →
    ∀ tc ∈ (processCalls calls).1, GoodTc tc := by
  intro calls hwf
  induction calls with
  | nil => intro tc htc; simp [processCalls] at htc
  | cons call rest ih =>
    intro tc htc
    rw [processCalls] at htc
    split_ifs at htc with hc
    · rcases hl : objLookup call "name" with _ | ⟨w⟩ <;> rw [hl] at htc
      · simp at htc
      cases w with
      | str s =>
        dsimp only at htc
        rcases List.mem_cons.mp htc with rfl | hmem
        · rcases hlp : objLookup call "parameters" with _ | ⟨pv⟩
          · simp [jContains, hlp] at hc
          · refine ⟨pv, wf_objLookup hwf.1 hlp, ?_⟩
            simp [hlp]
        · exact ih hwf.2 tc hmem
      | null => simp at htc
      | bool b => simp at htc
      | num n => simp at htc
      | arr es => simp at htc
      | obj fs => simp at htc
    · exact ih hwf.2 tc htc

theorem envelopeStep_good {j : Json} {acc : List ToolCall}
    (hwf : JsonWF j) (hacc : ∀ tc ∈ acc, GoodTc tc) :
    ∀ tc ∈ (envelopeStep j acc).1, GoodTc tc := by
  intro tc htc
  rw [envelopeStep] at htc
  split_ifs at htc with h1 h2
  · dsimp only at htc
    rcases List.mem_append.mp htc with hm | hm
    · exact hacc tc hm
    · rcases hl : objLookup j "tool_calls" with _ | ⟨w⟩ <;> rw [hl] at hm
      · simp [processCalls] at hm
      cases w with
      | arr calls =>
        exact processCalls_good calls (wf_objLookup hwf hl) tc hm
      | null => simp [processCalls] at hm
      | bool b => simp [processCalls] at hm
      | num n => simp [processCalls] at hm
      | str s => simp [processCalls] at hm
      | obj fs => simp [processCalls] at hm
  · rcases hl : objLookup j "name" with _ | ⟨w⟩ <;> rw [hl] at htc
    · simp at htc
      exact hacc tc htc
    cases w with
    | str s =>
      dsimp only at htc
      rcases List.mem_append.mp htc with hm | hm
      · exact hacc tc hm
      · simp at hm
        subst hm
        rcases hlp : objLookup j "parameters" with _ | ⟨pv⟩
        · simp [jContains, hlp] at h2
        · refine ⟨pv, wf_objLookup hwf hlp, ?_⟩
          simp [hlp]
    | null => simp at htc; exact hacc tc htc
    | bool b => simp at htc; exact hacc tc htc
    | num n => simp at htc; exact hacc tc htc
    | arr es => simp at htc; exact hacc tc htc
    | obj fs => simp at htc; exact hacc tc htc
  · exact hacc tc htc

theorem scan_good {text : List Char} : ∀ (ps : List Nat) (st : List ToolCall × Bool),
    (∀ tc ∈ st.1, GoodTc tc) →
    ∀ tc ∈ (ps.foldl (scanStep text) st).1, GoodTc tc := by
  intro ps
  induction ps with
  | nil => intro st hst tc htc; exact hst tc htc
  | cons p rest ih =>
    intro st hst tc htc
    refine ih (scanStep text st p) ?_ tc htc
    intro tc' htc'
    rw [scanStep] at htc'
    split_ifs at htc' with hdone
    · exact hst tc' htc'
    rcases hd : text.drop p with _ | ⟨c, t⟩ <;> rw [hd] at htc'
    · exact hst tc' htc'
    dsimp only at htc'
    split_ifs at htc' with hc
    · rcases he : extractJson (c :: t) with _ | ⟨slice⟩ <;> rw [he] at htc'
      · exact hst tc' htc'
      dsimp only at htc'
      rcases hj : parseJson (String.mk slice) with _ | ⟨j⟩ <;> rw [hj] at htc'
      · exact hst tc' htc'
      · exact envelopeStep_good (parseJson_wf hj) hst tc' htc'
    · exact hst tc' htc'

theorem scan_empty {text : List Char} : ∀ (ps : List Nat),
    (∀ p ∈ ps, envelopeAt text p = false) →
    ps.foldl (scanStep text) ([], false) = ([], false) := by
  intro ps h
  induction ps with
  | nil => rfl
  | cons p rest ih =>
    rw [List.foldl_cons, scanStep_not (h p (List.mem_cons_self p rest))]
    exact ih (fun q hq => h q (List.mem_cons_of_mem p hq))

/-- C4: the tool-call parser never throws (it is a total function in
this model, mirroring the catch-all in the source); when no
brace-matched JSON object in the input parses as either call envelope
it returns the empty list; and every returned call's `parameters_json`
string re-parses as valid JSON. -/
theorem C4_parser_contract (text : String) :
    (hasEnvelope text = false → parse_tool_calls text = []) ∧
    (∀ tc ∈ parse_tool_calls text, (parseJson tc.parameters_json).isSome = true) := by
  constructor
  · intro h
    rw [hasEnvelope] at h
    rw [parse_tool_calls, scan_empty (List.range text.data.length) ?_]
    simp only [List.any_eq_false] at h
    exact fun p hp => by simpa using h p hp
  · intro tc htc
    have := scan_good (List.range text.data.length) ([], false) (by simp) tc htc
    obtain ⟨v, hwf, heq⟩ := this
    rw [heq, parseJson_dumpJson hwf]
    rfl

set_option maxRecDepth 4096 in
/-- Witness for C4: the spec's malformed-output scenario yields the
empty list, and a well-formed single-call envelope yields a call whose
arguments re-parse. -/
theorem C4_parser_contract_witness :
    parse_tool_calls "I think \x7b this is not valid json" = [] ∧
    (parseJson (ToolCall.mk "echo" "\x7b\x7d").parameters_json).isSome = true :=
  ⟨(C4_parser_contract "I think \x7b this is not valid json").1 (by decide),
   (C4_parser_contract "\x7b\"name\":\"echo\",\"parameters\":\x7b\x7d\x7d").2
     (ToolCall.mk "echo" "\x7b\x7d") (by decide)⟩

/-- `format_chat_history` (`context_manager.cpp` lines 20-37): renders
the transcript with `System:`/`User:`/`Assistant:` role tags, silently
skipping messages with any other role, and ends with an open
`Assistant: ` turn. -/
def format_chat_history (history : List Msg) : String :=
  (history.foldl (fun acc msg =>
    if msg.role = "system" then acc ++ "System: " ++ msg.content ++ "\n\n"
    else if msg.role = "user" then acc ++ "User: " ++ msg.content ++ "\n\n"
    else if msg.role = "assistant" then acc ++ "Assistant: " ++ msg.content ++ "\n\n"
    else acc) "") ++ "Assistant: "

/-- `estimate_token_count` (`context_manager.cpp` lines 40-42):
`text.size() / 4`, integer (floor) division.  The byte count equals the
character count for the ASCII inputs considered here. -/
def estimate_token_count (text : String) : Nat := text.length / 4

/-- `is_context_full` (`context_manager.cpp` lines 45-49).  The float
threshold is modelled as an exact rational; the default `0.75f` is
exactly representable, so the comparison is exact for every context
size the library can meet. -/
def is_context_full (history : List Msg) (context_size : Nat) (threshold : ℚ) : Bool :=
  decide ((estimate_token_count (format_chat_history history) : ℚ) ≥
    threshold * context_size)

/-- A registered tool: the `luup_tool` descriptor fields (minus the
name, which keys the registry) with the callback of `ToolInfo`.
Nullable C strings become `Option`; the callback returning `none`
models a null `char*` return.  This type covers callbacks that only
read their parameters; a callback that writes back into the agent
through a captured pointer — the builtin summarization tool mutates
`agent->history` this way — is modelled by `MutToolEntry` below. -/
structure ToolEntry where
  description : Option String
  parameters_json : Option String
  callback : String → Option String

/-- Ordered insertion into the tool registry, modelling
`std::map<std::string, ToolInfo>`: keys are kept sorted and
re-registration under an existing name overwrites. -/
def mapInsert (tools : List (String × ToolEntry)) (k : String) (v : ToolEntry) :
    List (String × ToolEntry) :=
  match tools with
  | [] => [(k, v)]
  | (k', v') :: rest =>
    if k = k' then (k, v) :: rest
    else if k < k' then (k, v) :: (k', v') :: rest
    else (k', v') :: mapInsert rest k v

/-- One tool's entry in the schema preamble (`generate_tool_schema`,
`tool_calling.cpp` lines 218-222). -/
def schemaEntry (name : String) (info : ToolEntry) : String :=
  "Tool: " ++ name ++ "\n" ++
  "Description: " ++ (info.description.getD "No description") ++ "\n" ++
  "Parameters: " ++ (info.parameters_json.getD "\x7b\x7d") ++ "\n\n"

/-- The fixed call-envelope instructions at the end of the schema
preamble (`tool_calling.cpp` lines 224-234). -/
def schemaFooter : String :=
  "To call a tool, respond with JSON in the following format:\n" ++
  "\x60\x60\x60json\n" ++
  "\x7b\n" ++
  "  \"tool_calls\": [\n" ++
  "    \x7b\n" ++
  "      \"name\": \"tool_name\",\n" ++
  "      \"parameters\": \x7b ... \x7d\n" ++
  "    \x7d\n" ++
  "  ]\n" ++
  "\x7d\n" ++
  "\x60\x60\x60\n\n"

/-- `generate_tool_schema` (`tool_calling.cpp` lines 210-237). -/
def generate_tool_schema (tools : List (String × ToolEntry)) : String :=
  if tools.isEmpty then ""
  else
    "\n\nYou have access to the following tools:\n\n" ++
    (tools.foldl (fun acc p => acc ++ schemaEntry p.1 p.2) "") ++
    schemaFooter

/-- `execute_tool` (`tool_calling.cpp` lines 146-186): unknown names and
null callback returns produce JSON error objects without invoking
anything further. -/
def execute_tool (tool_name : String) (parameters_json : String)
    (tools : List (String × ToolEntry)) : String :=
  match tools.lookup tool_name with
  | none =>
    dumpJson (.obj [("error", .str "Tool not found"), ("tool_name", .str tool_name)])
  | some info =>
    match info.callback parameters_json with
    | some r => r
    | none =>
      dumpJson (.obj [("error", .str "Tool execution failed"), ("tool_name", .str tool_name)])

/-- `format_tool_result` (`tool_calling.cpp` lines 195-200). -/
def format_tool_result (tool_name result_json : String) : String :=
  "Tool \x27" ++ tool_name ++ "\x27 returned:\n" ++ result_json

/-- The `luup_agent` struct (`agent.cpp` lines 46-61). -/
structure Agent where
  system_prompt : String
  temperature : ℚ
  max_tokens : Int
  enable_tool_calling : Bool
  enable_history_management : Bool
  enable_builtin_tools : Bool
  history : List Msg
  tools : List (String × ToolEntry)

/-- The `luup_agent_config` struct: `system_prompt` is a nullable C
string. -/
structure AgentConfig where
  system_prompt : Option String
  temperature : ℚ
  max_tokens : Int
  enable_tool_calling : Bool
  enable_history_management : Bool
  enable_builtin_tools : Bool

/-- String search, modelling `std::string::find`: index of the first
occurrence of `pat`, scanning left to right.  `find` of an empty
pattern is position 0, as in C++. -/
def listFind (s pat : List Char) : Option Nat :=
  if pat.isPrefixOf s then some 0
  else
    match s with
    | [] => none
    | _ :: t => (listFind t pat).map (· + 1)

/-- `std::string::find` on `String`s (character = byte on the ASCII
inputs considered). -/
def strFind (s pat : String) : Option Nat := listFind s.data pat.data

/-- `std::string::insert(pos, t)`. -/
def strInsert (s : String) (i : Nat) (t : String) : String :=
  String.mk (s.data.take i ++ t.data ++ s.data.drop i)

/-- The history-off ChatML prompt of `luup_agent_generate_internal`
(`agent.cpp` lines 286-295). -/
def one_shot_prompt (sys userMsg : String) : String :=
  if ¬ sys = "" then
    "<|im_start|>system\n" ++ sys ++ "<|im_end|>\n" ++
    "<|im_start|>user\n" ++ userMsg ++ "<|im_end|>\n" ++
    "<|im_start|>assistant\n"
  else
    "<|im_start|>user\n" ++ userMsg ++ "<|im_end|>\n" ++
    "<|im_start|>assistant\n"

/-- Prompt rendering of `luup_agent_generate_internal` (`agent.cpp`
lines 281-295): the history-managed rendering or the one-shot ChatML
form. -/
def render_prompt (histOn : Bool) (sys : String) (history : List Msg)
    (user_message : String) : String :=
  if histOn then format_chat_history history
  else one_shot_prompt sys user_message

/-- Tool-schema injection of `luup_agent_generate_internal`
(`agent.cpp` lines 297-306): look for the first `<|im_end|>` and insert
the schema at that index plus 11 (the byte length of the marker plus
the newline); when the marker is absent nothing is inserted. -/
def inject_tool_schema (toolOn : Bool) (tools : List (String × ToolEntry))
    (prompt : String) : String :=
  if toolOn && !tools.isEmpty then
    match strFind prompt "<|im_end|>" with
    | some i => strInsert prompt (i + 11) (generate_tool_schema tools)
    | none => prompt
  else prompt

/-- The full prompt passed to the backend for one generation step. -/
def agent_prompt (ag : Agent) (user_message : String) : String :=
  inject_tool_schema ag.enable_tool_calling ag.tools
    (render_prompt ag.enable_history_management ag.system_prompt ag.history user_message)

/-- The `parameters_json` string registered for the built-in todo tool
(`todo_list.cpp` lines 223-242; adjacent C string literals concatenate
into one line). -/
def todoToolParams : String :=
  "\x7b" ++
  "  \"type\": \"object\"," ++
  "  \"properties\": \x7b" ++
  "    \"operation\": \x7b" ++
  "      \"type\": \"string\"," ++
  "      \"enum\": [\"add\", \"list\", \"complete\", \"delete\"]," ++
  "      \"description\": \"Operation to perform\"" ++
  "    \x7d," ++
  "    \"title\": \x7b" ++
  "      \"type\": \"string\"," ++
  "      \"description\": \"Todo title (required for \x27add\x27)\"" ++
  "    \x7d," ++
  "    \"id\": \x7b" ++
  "      \"type\": \"number\"," ++
  "      \"description\": \"Todo ID (required for \x27complete\x27 and \x27delete\x27)\"" ++
  "    \x7d" ++
  "  \x7d," ++
  "  \"required\": [\"operation\"]" ++
  "\x7d"

/-- The `parameters_json` string registered for the built-in notes tool
(`notes.cpp` lines 304-332). -/
def notesToolParams : String :=
  "\x7b" ++
  "  \"type\": \"object\"," ++
  "  \"properties\": \x7b" ++
  "    \"operation\": \x7b" ++
  "      \"type\": \"string\"," ++
  "      \"enum\": [\"create\", \"read\", \"update\", \"delete\", \"search\", \"list\"]," ++
  "      \"description\": \"Operation to perform\"" ++
  "    \x7d," ++
  "    \"content\": \x7b" ++
  "      \"type\": \"string\"," ++
  "      \"description\": \"Note content (required for \x27create\x27, optional for \x27update\x27)\"" ++
  "    \x7d," ++
  "    \"id\": \x7b" ++
  "      \"type\": \"number\"," ++
  "      \"description\": \"Note ID (required for \x27read\x27, \x27update\x27, \x27delete\x27)\"" ++
  "    \x7d," ++
  "    \"tags\": \x7b" ++
  "      \"type\": \"array\"," ++
  "      \"items\": \x7b\"type\": \"string\"\x7d," ++
  "      \"description\": \"Tags for the note (optional)\"" ++
  "    \x7d," ++
  "    \"query\": \x7b" ++
  "      \"type\": \"string\"," ++
  "      \"description\": \"Search query for \x27search\x27 operation\"" ++
  "    \x7d" ++
  "  \x7d," ++
  "  \"required\": [\"operation\"]" ++
  "\x7d"

/-- The `parameters_json` string registered for the built-in
summarization tool (`summarization.cpp` lines 261-272). -/
def summarizationToolParams : String :=
  "\x7b" ++
  "  \"type\": \"object\"," ++
  "  \"properties\": \x7b" ++
  "    \"operation\": \x7b" ++
  "      \"type\": \"string\"," ++
  "      \"enum\": [\"status\", \"trigger\", \"enable\", \"disable\"]," ++
  "      \"description\": \"Operation to perform\"" ++
  "    \x7d" ++
  "  \x7d," ++
  "  \"required\": [\"operation\"]" ++
  "\x7d"

/-- `luup_agent_enable_builtin_todo` (`todo_list.cpp` lines 202-263),
restricted to its effect on the agent: registering the `todo` tool.
The stateful storage closure is supplied as a parameter; its behaviour
is modelled separately by `todo_tool_callback` below. -/
def enable_builtin_todo (cb : String → Option String) (ag : Agent) : Agent :=
  let entry : ToolEntry :=
    ⟨some "Manage todo list: add, list, complete, or delete tasks", some todoToolParams, cb⟩
  { ag with tools := mapInsert ag.tools "todo" entry }

/-- `luup_agent_enable_builtin_notes` (`notes.cpp` lines 283-353),
restricted to its effect on the agent. -/
def enable_builtin_notes (cb : String → Option String) (ag : Agent) : Agent :=
  let entry : ToolEntry :=
    ⟨some "Manage notes: create, read, update, delete, or search notes with tags",
     some notesToolParams, cb⟩
  { ag with tools := mapInsert ag.tools "notes" entry }

/-- `luup_agent_enable_builtin_summarization` (`summarization.cpp`
lines 241-297), restricted to its effect on the agent. -/
def enable_builtin_summarization (cb : String → Option String) (ag : Agent) : Agent :=
  let entry : ToolEntry :=
    ⟨some "Control auto-summarization: check status, manually trigger, enable/disable",
     some summarizationToolParams, cb⟩
  { ag with tools := mapInsert ag.tools "summarization" entry }

/-- `luup_agent_create` (`agent.cpp` lines 65-106): a null system
prompt becomes the empty string; a non-empty prompt seeds the history
with one `system` message; when `enable_builtin_tools` is set the
three built-in tools are registered (their storage closures are the
three callback parameters). -/
def luup_agent_create (cfg : AgentConfig)
    (todoCb notesCb sumCb : String → Option String) : Agent :=
  let sys := cfg.system_prompt.getD ""
  let ag : Agent :=
    { system_prompt := sys
      temperature := cfg.temperature
      max_tokens := cfg.max_tokens
      enable_tool_calling := cfg.enable_tool_calling
      enable_history_management := cfg.enable_history_management
      enable_builtin_tools := cfg.enable_builtin_tools
      history := if ¬ sys = "" then [⟨"system", sys⟩] else []
      tools := [] }
  if ag.enable_builtin_tools then
    enable_builtin_summarization sumCb (enable_builtin_notes notesCb
      (enable_builtin_todo todoCb ag))
  else ag

/-- `luup_agent_register_tool` (`agent.cpp` lines 108-132), success
path: insert or overwrite under the tool's name. -/
def luup_agent_register_tool (ag : Agent) (name : String) (entry : ToolEntry) : Agent :=
  { ag with tools := mapInsert ag.tools name entry }

/-- `luup_agent_add_message` (`agent.cpp` lines 388-409): appends a
message with any role string. -/
def luup_agent_add_message (ag : Agent) (role content : String) : Agent :=
  { ag with history := ag.history ++ [⟨role, content⟩] }

/-- `luup_agent_clear_history` (`agent.cpp` lines 411-428): clear, then
re-add the configured system prompt when it is non-empty. -/
def luup_agent_clear_history (ag : Agent) : Agent :=
  let ag1 := { ag with history := [] }
  if ¬ ag.system_prompt = "" then
    { ag1 with history := ag1.history ++ [⟨"system", ag.system_prompt⟩] }
  else ag1

/-- `luup_agent_generate_internal` (`agent.cpp` lines 266-381) as a
fueled recursion.  The backend is a parameter taking the call index and
the prompt (`none` models `llama_backend_generate` returning null).
The C++ recursion on tool results carries **no depth bound** — the fuel
here is only the proof device that lets the non-terminating recursion be
studied: each C++ re-entry costs one unit, and a run that returns
`none` for every fuel corresponds to a call of the C++ function that
never returns.  The result carries the returned text, the final agent
and the number of tool re-entries taken. -/
def luup_agent_generate_fuel (backend : Nat → String → Option String) :
    Nat → Nat → Agent → String → Bool → Option (String × Agent × Nat)
  | 0, _, _, _, _ => none
  | fuel + 1, callIdx, ag, user_message, add_to_history =>
    let ag1 := if add_to_history && ag.enable_history_management then
      { ag with history := ag.history ++ [⟨"user", user_message⟩] } else ag
    let prompt := agent_prompt ag1 user_message
    match backend callIdx prompt with
    | none => none
    | some response =>
      let tool_calls := if ag1.enable_tool_calling && !ag1.tools.isEmpty then
        parse_tool_calls response else []
      if tool_calls.isEmpty then
        let ag2 := if ag1.enable_history_management then
          { ag1 with history := ag1.history ++ [⟨"assistant", response⟩] } else ag1
        some (response, ag2, 0)
      else
        let tool_results := tool_calls.foldl (fun acc tc =>
          acc ++ format_tool_result tc.tool_name
            (execute_tool tc.tool_name tc.parameters_json ag1.tools) ++ "\n") ""
        let ag2 := if ag1.enable_history_management then
          { ag1 with history := ag1.history ++
              [⟨"assistant", response⟩, ⟨"user", tool_results⟩] } else ag1
        match luup_agent_generate_fuel backend fuel (callIdx + 1) ag2 tool_results false with
        | none => none
        | some (r, ag3, k) => some (r, ag3, k + 1)

theorem generate_history_shape (backend : Nat → String → Option String) :
    ∀ (fuel callIdx : Nat) (ag : Agent) (u : String) (add : Bool) (r : String)
      (ag' : Agent) (k : Nat),
    ag.enable_history_management = true →
    luup_agent_generate_fuel backend fuel callIdx ag u add = some (r, ag', k) →
    ∃ ps : List (String × String),
      ag'.history = ag.history ++
        ((if add then [Msg.mk "user" u] else []) ++
         ((ps.bind fun p => [Msg.mk "assistant" p.1, Msg.mk "user" p.2]) ++
          [Msg.mk "assistant" r])) ∧
      ps.length = k := by
  intro fuel
  induction fuel with
  | zero =>
    intro callIdx ag u add r ag' k hh h
    exact absurd h (by simp [luup_agent_generate_fuel])
  | succ f ih =>
    intro callIdx ag u add r ag' k hh h
    rw [luup_agent_generate_fuel] at h
    dsimp only at h
    set ag1 := if add && ag.enable_history_management then
      { ag with history := ag.history ++ [⟨"user", u⟩] } else ag with hag1
    have hh1 : ag1.enable_history_management = true := by
      rw [hag1]; split <;> simpa using hh
    have hag1hist : ag1.history = ag.history ++ (if add then [Msg.mk "user" u] else []) := by
      rw [hag1, hh]
      cases add <;> simp
    rcases hb : backend callIdx (agent_prompt ag1 u) with _ | resp <;> rw [hb] at h
    · exact absurd h (by simp)
    dsimp only at h
    set tcs := if ag1.enable_tool_calling && !ag1.tools.isEmpty then
      parse_tool_calls resp else [] with htcs
    by_cases hemp : tcs.isEmpty
    · rw [if_pos hemp, if_pos hh1] at h
      simp only [Option.some.injEq, Prod.mk.injEq] at h
      obtain ⟨rfl, rfl, rfl⟩ := h
      refine ⟨[], ?_, rfl⟩
      simp [hag1hist]
    · rw [if_neg hemp, if_pos hh1] at h
      set results := tcs.foldl (fun acc tc =>
        acc ++ format_tool_result tc.tool_name
          (execute_tool tc.tool_name tc.parameters_json ag1.tools) ++ "\n") "" with hres
      rcases hrec : luup_agent_generate_fuel backend f (callIdx + 1)
          { ag1 with history := ag1.history ++
              [⟨"assistant", resp⟩, ⟨"user", results⟩] } results false
          with _ | ⟨r3, ag3, k3⟩ <;> rw [hrec] at h
      · exact absurd h (by simp)
      simp only [Option.some.injEq, Prod.mk.injEq] at h
      obtain ⟨rfl, rfl, rfl⟩ := h
      obtain ⟨ps', hps', hlen⟩ := ih (callIdx + 1) _ results false r3 ag3 k3 (by simpa using hh1) hrec
      refine ⟨(resp, results) :: ps', ?_, by simpa using hlen⟩
      simp only [List.cons_bind] at hps' ⊢
      rw [hps', hag1hist]
      simp

/-- A registered tool whose callback returns the empty JSON object, for
exercising the tool-call loop. -/
def echoEntry : ToolEntry :=
  ⟨some "Echo", some "\x7b\x7d", fun _ => some (dumpJson (.obj []))⟩

/-- An assistant response that is exactly a single-call envelope. -/
def toolLoopResponse : String :=
  dumpJson (.obj [("name", .str "echo"), ("parameters", .obj [])])

/-- A backend that emits a tool call on every generation. -/
def alwaysToolBackend : Nat → String → Option String :=
  fun _ _ => some toolLoopResponse

set_option maxRecDepth 4096 in
theorem ptc_loop : (parse_tool_calls toolLoopResponse).isEmpty = false := by decide

/-- C1: the claim is that `respond` terminates after a bounded number of
tool re-entries for every backend, including one that always emits a
tool call, returning the last raw response when the bound is exceeded.
The code has no such bound (`agent.cpp` lines 329-357 recurse
unconditionally; the comment at line 355 concedes a real implementation
would want a depth bound): against the always-tool-call backend the
generation loop consumes any finite fuel without ever producing a
result, i.e. the C++ recursion never returns. -/
theorem C1_no_recursion_bound : ∀ (fuel callIdx : Nat) (ag : Agent) (u : String)
    (add : Bool), ag.enable_tool_calling = true → ag.tools = [("echo", echoEntry)] →
    luup_agent_generate_fuel alwaysToolBackend fuel callIdx ag u add = none := by
  intro fuel
  induction fuel with
  | zero => intro callIdx ag u add ht hts; rfl
  | succ f ih =>
    intro callIdx ag u add ht hts
    rw [luup_agent_generate_fuel]
    dsimp only
    set ag1 := if add && ag.enable_history_management then
      { ag with history := ag.history ++ [⟨"user", u⟩] } else ag with hag1
    have h1t : ag1.enable_tool_calling = true := by
      rw [hag1]; split <;> simpa using ht
    have h1ts : ag1.tools = [("echo", echoEntry)] := by
      rw [hag1]; split <;> simpa using hts
    dsimp only [alwaysToolBackend]
    have hcond : (ag1.enable_tool_calling && !ag1.tools.isEmpty) = true := by
      rw [h1t, h1ts]; rfl
    rw [hcond, if_pos rfl]
    have hne : ¬ ((parse_tool_calls toolLoopResponse).isEmpty = true) := by
      rw [ptc_loop]; exact Bool.false_ne_true
    rw [if_neg hne]
    rw [ih (callIdx + 1)]
    · split <;> simpa using h1t
    · split <;> simpa using h1ts

/-- The concrete agent of the C1 scenario: tool calling on, one `echo`
tool registered. -/
def c1Agent : Agent :=
  ⟨"", 7/10, 0, true, true, false, [], [("echo", echoEntry)]⟩

/-- Witness for C1: with fuel for five re-entries the loop still
produces nothing on the always-tool-call backend. -/
theorem C1_no_recursion_bound_witness :
    luup_agent_generate_fuel alwaysToolBackend 5 0 c1Agent "hi" true = none :=
  C1_no_recursion_bound 5 0 c1Agent "hi" true rfl rfl

theorem pairs_bind_length (ps : List (String × String)) :
    (ps.bind fun p => [Msg.mk "assistant" p.1, Msg.mk "user" p.2]).length =
      2 * ps.length := by
  induction ps with
  | nil => simp
  | cons p t ih =>
    simp only [List.cons_bind, List.length_append, List.length_cons, ih, List.length_nil]
    omega

/-- The agent of the C2 scenario at the point of prompt construction:
history management on, tool calling on, one tool registered, the system
prompt and the pending user message already in history. -/
def c2Agent : Agent :=
  ⟨"You are helpful.", 7/10, 0, true, true, false,
    [⟨"system", "You are helpful."⟩, ⟨"user", "hi"⟩], [("echo", echoEntry)]⟩

set_option maxRecDepth 8192 in
/-- C2: the claim says every backend prompt of a tool-enabled agent with
a non-empty registry carries the tool-schema preamble right after the
system message, in the history-managed rendering too.  The
history-managed rendering (`agent.cpp` line 284) is
`format_chat_history`, which writes `System:`/`User:`/`Assistant:` tags
and never the ChatML marker `<|im_end|>` that the injection at lines
297-306 searches for, so the search misses and nothing is inserted: the
backend receives the plain transcript without any part of the schema. -/
theorem C2_schema_missing_in_history_prompt :
    agent_prompt c2Agent "hi" =
      "System: You are helpful.\n\nUser: hi\n\nAssistant: " ∧
    strFind (agent_prompt c2Agent "hi") "<|im_end|>" = none ∧
    strFind (agent_prompt c2Agent "hi") (generate_tool_schema c2Agent.tools) = none ∧
    strFind (agent_prompt c2Agent "hi") "Tool: echo" = none := by
  refine ⟨rfl, by decide, by decide, by decide⟩

/-- C6: `clear_history` leaves exactly the configured system prompt:
one `system` message carrying the configured prompt when it is
non-empty, and nothing otherwise, regardless of the prior history. -/
theorem C6_clear_history_exactly_system_prompt (ag : Agent) :
    (luup_agent_clear_history ag).history =
      if ag.system_prompt = "" then [] else [Msg.mk "system" ag.system_prompt] := by
  unfold luup_agent_clear_history
  by_cases h : ag.system_prompt = "" <;> simp [h]

theorem mem_pairs_bind_role (ps : List (String × String)) (m : Msg)
    (hm : m ∈ ps.bind fun p => [Msg.mk "assistant" p.1, Msg.mk "user" p.2]) :
    m.role = "assistant" ∨ m.role = "user" := by
  induction ps with
  | nil => simp at hm
  | cons p t ih =>
    simp only [List.cons_bind, List.mem_append, List.mem_cons,
      List.mem_singleton, List.not_mem_nil, or_false] at hm
    rcases hm with (h | h) | h
    · left; rw [h]
    · right; rw [h]
    · exact ih h

/-- C9: a null or empty-string system prompt behaves as no prompt at
all: `create` seeds an empty history and stores the empty string,
`clear_history` on any agent whose stored prompt is empty leaves the
history empty, and a history-managed generation only ever appends
`user` and `assistant` messages, so any `system` message present
afterwards was already there before. -/
theorem C9_empty_prompt_like_none (cfg : AgentConfig)
    (tc nc sc : String → Option String)
    (h : cfg.system_prompt = none ∨ cfg.system_prompt = some "") :
    (luup_agent_create cfg tc nc sc).history = [] ∧
    (luup_agent_create cfg tc nc sc).system_prompt = "" ∧
    (∀ ag : Agent, ag.system_prompt = "" →
      (luup_agent_clear_history ag).history = []) ∧
    (∀ (backend : Nat → String → Option String) (fuel callIdx : Nat) (ag : Agent)
      (u : String) (add : Bool) (r : String) (ag' : Agent) (k : Nat),
      ag.enable_history_management = true →
      luup_agent_generate_fuel backend fuel callIdx ag u add = some (r, ag', k) →
      ∀ m, m ∈ ag'.history → m.role = "system" → m ∈ ag.history) := by
  have hsys : cfg.system_prompt.getD "" = "" := by
    rcases h with h | h <;> rw [h] <;> rfl
  refine ⟨?_, ?_, ?_, ?_⟩
  · unfold luup_agent_create
    dsimp only
    split
    · simp [enable_builtin_summarization, enable_builtin_notes,
        enable_builtin_todo, hsys]
    · simp [hsys]
  · unfold luup_agent_create
    dsimp only
    split
    · simp [enable_builtin_summarization, enable_builtin_notes,
        enable_builtin_todo, hsys]
    · simp [hsys]
  · intro ag hag
    unfold luup_agent_clear_history
    simp [hag]
  · intro backend fuel callIdx ag u add r ag' k hh hgen m hm hrole
    obtain ⟨ps, hsh, -⟩ :=
      generate_history_shape backend fuel callIdx ag u add r ag' k hh hgen
    rw [hsh, List.mem_append] at hm
    rcases hm with hm | hm
    · exact hm
    · exfalso
      rw [List.mem_append] at hm
      rcases hm with hm | hm
      · rcases add with _ | _
        · simp at hm
        · simp only [if_pos rfl, List.mem_singleton, if_true] at hm
          rw [hm] at hrole
          simp at hrole
      · rw [List.mem_append] at hm
        rcases hm with hm | hm
        · rcases mem_pairs_bind_role ps m hm with hrl | hrl <;>
            · rw [hrl] at hrole
              exact absurd hrole (by decide)
        · simp only [List.mem_singleton] at hm
          rw [hm] at hrole
          simp at hrole

/-- The configuration of the C9 witness: a null system prompt. -/
def c9Cfg : AgentConfig := ⟨none, 7/10, 0, false, true, false⟩

/-- Witness for C9: creating from the null-prompt configuration gives
an empty initial history. -/
theorem C9_empty_prompt_like_none_witness :
    (luup_agent_create c9Cfg (fun _ => none) (fun _ => none) (fun _ => none)).history
      = [] :=
  (C9_empty_prompt_like_none c9Cfg (fun _ => none) (fun _ => none) (fun _ => none)
    (Or.inl rfl)).1

/-- The occupancy formula as the spec words it: the ceiling of
rendered characters over four, `(n + 3) / 4` in integer arithmetic. -/
def specCeilOccupancy (text : String) : Nat := (text.length + 3) / 4

/-- C7 counterexample: on the empty history the rendered transcript is
`"Assistant: "` (11 characters); the spec's ceiling formula gives 3
while `estimate_token_count` returns `11 / 4 = 2` — the code takes the
floor, not the ceiling. -/
theorem C7_ceiling_counterexample :
    specCeilOccupancy (format_chat_history []) = 3 ∧
    estimate_token_count (format_chat_history []) = 2 := by decide

/-- C7 (amended): the estimated occupancy is the floor
`⌊rendered-characters / 4⌋` — characterized by the two flanking
inequalities — and with the default threshold `0.75` the manager
reports full exactly when `occupancy ≥ 0.75 × context-size`,
i.e. `3·context-size ≤ 4·occupancy` in exact arithmetic. -/
theorem C7_occupancy_is_floor (history : List Msg) (context_size : Nat) :
    4 * estimate_token_count (format_chat_history history) ≤
      (format_chat_history history).length ∧
    (format_chat_history history).length <
      4 * estimate_token_count (format_chat_history history) + 4 ∧
    (is_context_full history context_size (3/4) = true ↔
      3 * context_size ≤ 4 * estimate_token_count (format_chat_history history)) := by
  refine ⟨?_, ?_, ?_⟩
  · rw [estimate_token_count, Nat.mul_comm]
    exact Nat.div_mul_le_self _ 4
  · rw [estimate_token_count]
    have h1 := Nat.div_add_mod (format_chat_history history).length 4
    have h2 := Nat.mod_lt (format_chat_history history).length (show 0 < 4 by norm_num)
    omega
  · unfold is_context_full
    rw [decide_eq_true_eq, ge_iff_le]
    have key : ∀ a b : ℕ, ((3 : ℚ)/4 * a ≤ (b : ℚ)) ↔ 3 * a ≤ 4 * b := by
      intro a b
      rw [div_mul_eq_mul_div, div_le_iff (by norm_num : (0:ℚ) < 4)]
      constructor
      · intro h
        have hc : ((3 * a : ℕ) : ℚ) ≤ ((4 * b : ℕ) : ℚ) := by push_cast; linarith
        exact_mod_cast hc
      · intro h
        have hc : ((3 * a : ℕ) : ℚ) ≤ ((4 * b : ℕ) : ℚ) := by exact_mod_cast h
        push_cast at hc; linarith
    exact key context_size _

/-- `luup_error_t` (`luup_agent.h`), as used by `error_handling.cpp`. -/
inductive ErrCode where
  | success
  | invalid_param
  | out_of_memory
  | model_not_found
  | inference_failed
  | tool_not_found
  | json_parse_failed
  | http_failed
  | backend_init_failed
deriving DecidableEq

/-- `error_code_to_string` (`error_handling.cpp` lines 24-37). -/
def error_code_to_string : ErrCode → String
  | .success => "Success"
  | .invalid_param => "Invalid parameter"
  | .out_of_memory => "Out of memory"
  | .model_not_found => "Model file not found"
  | .inference_failed => "Inference failed"
  | .tool_not_found => "Tool not found"
  | .json_parse_failed => "JSON parse failed"
  | .http_failed => "HTTP request failed"
  | .backend_init_failed => "Backend initialization failed"

/-- The thread-local last-error slot (`error_handling.cpp` lines 14-16):
the stored message and code for one thread. -/
structure ErrSlot where
  code : ErrCode
  message : String
deriving DecidableEq

/-- `luup_set_error` (`error_handling.cpp` lines 55-72) as a slot
transformer: a non-empty message is prefixed with the bracketed code
string, an empty one is replaced by the code string alone.  The global
error callback only observes the slot and never changes it, so it is
not modelled. -/
def luup_set_error (code : ErrCode) (message : String) (_slot : ErrSlot) : ErrSlot :=
  ⟨code, if ¬ message = "" then "[" ++ error_code_to_string code ++ "] " ++ message
         else error_code_to_string code⟩

/-- `luup_clear_error` (`error_handling.cpp` lines 75-78). -/
def luup_clear_error : ErrSlot := ⟨ErrCode.success, ""⟩

/-- The `luup_tool` descriptor with its nullable strings. -/
structure ToolDesc where
  name : Option String
  description : Option String
  parameters_json : Option String

/-- `luup_agent_register_tool` (`agent.cpp` lines 108-132) with its
nullable arguments and the error slot made explicit: returns the
status code, the (unchanged or updated) agent, and the slot after the
call.  Null agent, tool, tool name or callback is the failure path;
the success path registers the tool and returns `LUUP_SUCCESS` without
touching the slot. -/
def luup_agent_register_tool_checked (slot : ErrSlot) (agent : Option Agent)
    (tool : Option ToolDesc) (callback : Option (String → Option String)) :
    ErrCode × Option Agent × ErrSlot :=
  match agent, tool with
  | some ag, some td =>
    match td.name, callback with
    | some nm, some cb =>
      (ErrCode.success,
       some { ag with tools := mapInsert ag.tools nm ⟨td.description, td.parameters_json, cb⟩ },
       slot)
    | _, _ =>
      (ErrCode.invalid_param, agent,
       luup_set_error ErrCode.invalid_param "Invalid parameters for tool registration" slot)
  | _, _ =>
    (ErrCode.invalid_param, agent,
     luup_set_error ErrCode.invalid_param "Invalid parameters for tool registration" slot)

/-- C8 (amended): a failing `register_tool` sets the thread-local slot
and returns the invalid-parameter sentinel, but a successful one, while
returning `LUUP_SUCCESS` and updating the registry, leaves the slot
exactly as it was: the success path never clears it, so an error left
by an earlier failure stays visible after a later successful
operation. -/
theorem C8_register_tool_error_discipline (slot : ErrSlot) (ag : Agent)
    (td : ToolDesc) (nm : String) (cb : String → Option String)
    (hnm : td.name = some nm) :
    (luup_agent_register_tool_checked slot none (some td) (some cb)).1 =
      ErrCode.invalid_param ∧
    (luup_agent_register_tool_checked slot none (some td) (some cb)).2.2.code =
      ErrCode.invalid_param ∧
    ¬ (luup_agent_register_tool_checked slot none (some td) (some cb)).2.2.message = "" ∧
    (luup_agent_register_tool_checked slot (some ag) (some td) (some cb)).1 =
      ErrCode.success ∧
    (luup_agent_register_tool_checked slot (some ag) (some td) (some cb)).2.1 =
      some { ag with tools := mapInsert ag.tools nm ⟨td.description, td.parameters_json, cb⟩ } ∧
    (luup_agent_register_tool_checked slot (some ag) (some td) (some cb)).2.2 = slot := by
  refine ⟨rfl, rfl, ?_, ?_, ?_, ?_⟩
  · show ¬ ("[" ++ error_code_to_string ErrCode.invalid_param ++ "] " ++
      "Invalid parameters for tool registration") = ""
    decide
  all_goals simp [luup_agent_register_tool_checked, hnm, luup_set_error]

/-- The agent and descriptor of the C8 scenario. -/
def c8Agent : Agent := ⟨"", 7/10, 0, true, true, false, [], []⟩

/-- The tool descriptor of the C8 scenario. -/
def c8Tool : ToolDesc := ⟨some "echo", none, none⟩

/-- Witness for C8: a successful registration performed while the slot
holds a stale error leaves the stale error in place. -/
theorem C8_register_tool_error_discipline_witness :
    (luup_agent_register_tool_checked ⟨ErrCode.tool_not_found, "stale"⟩
      (some c8Agent) (some c8Tool) (some fun _ => none)).2.2 =
      ⟨ErrCode.tool_not_found, "stale"⟩ :=
  (C8_register_tool_error_discipline ⟨ErrCode.tool_not_found, "stale"⟩ c8Agent
    c8Tool "echo" (fun _ => none) rfl).2.2.2.2.2

/-- C8 counterexample: the claim says every successful core operation
clears the slot; after a failed registration (null callback) followed
by a successful one, the slot still reports the earlier
invalid-parameter error. -/
theorem C8_stale_error_after_success :
    (luup_agent_register_tool_checked
      (luup_agent_register_tool_checked ⟨ErrCode.success, ""⟩
        (some c8Agent) (some c8Tool) none).2.2
      (some c8Agent) (some c8Tool) (some fun _ => none)).1 = ErrCode.success ∧
    (luup_agent_register_tool_checked
      (luup_agent_register_tool_checked ⟨ErrCode.success, ""⟩
        (some c8Agent) (some c8Tool) none).2.2
      (some c8Agent) (some c8Tool) (some fun _ => none)).2.2 =
      ⟨ErrCode.invalid_param,
       "[Invalid parameter] Invalid parameters for tool registration"⟩ := by
  exact ⟨rfl, rfl⟩

/-- The label prepended to the generated summary (`summarization.cpp`
line 140). -/
def summaryMarker : String := "[Previous conversation summary]: "

/-- A `system` message labeled as a summary: its content starts with
the summary marker. -/
def isSummaryMsg (m : Msg) : Bool :=
  m.role == "system" && summaryMarker.data.isPrefixOf m.content.data

/-- Whether `history[0]` exists and has the `system` role
(`summarization.cpp` lines 131 and 145). -/
def headIsSystem (history : List Msg) : Bool :=
  match history.head? with
  | some m => m.role == "system"
  | none => false

/-- `SummarizationState::apply_summarization` (`summarization.cpp`
lines 114-156), with the model-generated summary supplied as a
parameter (an empty string models the null/empty backend result).  The
C++ cut point is `(size_t)(history.size() * 0.6)`; for every history
length the double product `n * 0.6` truncates to `3 * n / 5` in
integer arithmetic (the fractional parts 0.2/0.4/0.6/0.8 are far
beyond the rounding error), so the model uses the latter.  When the
head is a `system` message the code decrements the cut by one after
keeping the head and then resumes at cut-plus-one, so both branches
keep exactly `history.drop (3 * n / 5)`. -/
def apply_summarization (summary : String) (history : List Msg) : List Msg :=
  if summary = "" then history
  else
    let num := 3 * history.length / 5
    if num < 2 then history
    else if headIsSystem history then
      history.take 1 ++ [⟨"system", summaryMarker ++ summary⟩] ++ history.drop num
    else
      ⟨"system", summaryMarker ++ summary⟩ :: history.drop num

/-- Histories reachable through the public API for an agent configured
with system prompt `sys`: creation, appends (`add_message` and the
generation loop), `clear_history`, and summarization. -/
inductive Reachable (sys : String) : List Msg → Prop where
  | init : Reachable sys (if sys = "" then [] else [⟨"system", sys⟩])
  | add (h : List Msg) (role content : String) :
      Reachable sys h → Reachable sys (h ++ [⟨role, content⟩])
  | clear (h : List Msg) :
      Reachable sys h → Reachable sys (if sys = "" then [] else [⟨"system", sys⟩])
  | summarize (h : List Msg) (summary : String) :
      Reachable sys h → Reachable sys (apply_summarization summary h)

theorem reachable_head (sys : String) (hsys : ¬ sys = "") :
    ∀ h : List Msg, Reachable sys h → h.head? = some (Msg.mk "system" sys) := by
  intro h hr
  induction hr with
  | init => rw [if_neg hsys]; rfl
  | add h' role content _ ih =>
    cases h' with
    | nil => simp at ih
    | cons a t => simpa using ih
  | clear h' _ _ => rw [if_neg hsys]; rfl
  | summarize h' summary _ ih =>
    simp only [apply_summarization]
    split_ifs with h1 h2 h3
    · exact ih
    · exact ih
    · cases h' with
      | nil => simp at ih
      | cons a t =>
        simp only [List.head?_cons, Option.some.injEq] at ih
        subst ih
        simp
    · exfalso
      cases h' with
      | nil => simp at ih
      | cons a t =>
        simp only [List.head?_cons, Option.some.injEq] at ih
        subst ih
        exact h3 (by simp [headIsSystem])

/-- C5 (amended): for every reachable history of an agent configured
with a non-empty system prompt, applying summarization preserves the
position-0 system prompt; when it fires (non-empty summary, cut point
at least 2) the one summary message it adds sits directly after the
preserved system prompt and before every surviving turn, and the total
count of summary-labeled system messages is one provided none survived
in the kept tail — summary-labeled messages injected into the tail via
`add_message` survive and are not deduplicated. -/
theorem C5_summarization_structure (sys summary : String) (h : List Msg)
    (hsys : ¬ sys = "") (hr : Reachable sys h) :
    (apply_summarization summary h).head? = some (Msg.mk "system" sys) ∧
    (¬ summary = "" → 2 ≤ 3 * h.length / 5 →
      apply_summarization summary h =
        Msg.mk "system" sys :: Msg.mk "system" (summaryMarker ++ summary) ::
          h.drop (3 * h.length / 5)) ∧
    (¬ summary = "" → 2 ≤ 3 * h.length / 5 →
      isSummaryMsg (Msg.mk "system" sys) = false →
      (h.drop (3 * h.length / 5)).countP isSummaryMsg = 0 →
      (apply_summarization summary h).countP isSummaryMsg = 1) := by
  have hhead := reachable_head sys hsys h hr
  have key : ¬ summary = "" → 2 ≤ 3 * h.length / 5 →
      apply_summarization summary h =
        Msg.mk "system" sys :: Msg.mk "system" (summaryMarker ++ summary) ::
          h.drop (3 * h.length / 5) := by
    intro hs hnum
    cases h with
    | nil => simp at hhead
    | cons a t =>
      simp only [List.head?_cons, Option.some.injEq] at hhead
      subst hhead
      simp only [apply_summarization, if_neg hs]
      rw [if_neg (by omega)]
      rw [if_pos (by simp [headIsSystem])]
      simp
  refine ⟨?_, key, ?_⟩
  · exact reachable_head sys hsys _ (Reachable.summarize h summary hr)
  · intro hs hnum hns hcnt
    rw [key hs hnum]
    have hSpred : isSummaryMsg (Msg.mk "system" (summaryMarker ++ summary)) = true := by
      simp [isSummaryMsg, String.data_append, List.isPrefixOf_iff_prefix,
        List.prefix_append]
    simp [List.countP_cons, hSpred, hns, hcnt]

/-- A reachable five-message history with no summary-labeled content. -/
def c5CleanHistory : List Msg :=
  [⟨"system", "S"⟩, ⟨"user", "u1"⟩, ⟨"assistant", "a1"⟩, ⟨"user", "u2"⟩,
   ⟨"assistant", "a2"⟩]

/-- Witness for C5: on the clean five-message history summarization
leaves exactly one summary-labeled message. -/
theorem C5_summarization_structure_witness :
    (apply_summarization "sum" c5CleanHistory).countP isSummaryMsg = 1 :=
  (C5_summarization_structure "S" "sum" c5CleanHistory (by decide)
    (Reachable.add _ "assistant" "a2"
      (Reachable.add _ "user" "u2"
        (Reachable.add _ "assistant" "a1"
          (Reachable.add _ "user" "u1" Reachable.init))))).2.2
    (by decide) (by decide) (by decide) (by decide)

/-- A reachable history ending in an `add_message`-injected `system`
message whose content carries the summary label. -/
def c5InjectedHistory : List Msg :=
  [⟨"system", "S"⟩, ⟨"user", "u1"⟩, ⟨"assistant", "a1"⟩, ⟨"user", "u2"⟩,
   ⟨"system", summaryMarker ++ "fake"⟩]

/-- C5 counterexample: the claim bounds the summary-labeled system
messages after summarization by one and places them before all
surviving non-system turns; on a reachable history with an injected
summary-labeled message the result carries two such messages, one of
them after the surviving `user` turn. -/
theorem C5_injected_summary_counterexample :
    Reachable "S" c5InjectedHistory ∧
    apply_summarization "sum" c5InjectedHistory =
      [Msg.mk "system" "S", Msg.mk "system" (summaryMarker ++ "sum"),
       Msg.mk "user" "u2", Msg.mk "system" (summaryMarker ++ "fake")] ∧
    (apply_summarization "sum" c5InjectedHistory).countP isSummaryMsg = 2 := by
  refine ⟨?_, by decide, by decide⟩
  exact Reachable.add _ "system" (summaryMarker ++ "fake")
    (Reachable.add _ "user" "u2"
      (Reachable.add _ "assistant" "a1"
        (Reachable.add _ "user" "u1" Reachable.init)))

/-- `nlohmann::json::type_name()`. -/
def jtypeName : Json → String
  | .null => "null"
  | .bool _ => "boolean"
  | .num _ => "number"
  | .str _ => "string"
  | .arr _ => "array"
  | .obj _ => "object"

/-- `params.value(key, default)` instantiated at `int`
(`json::value`): a missing key yields the default, a present value goes
through `get<int>`, which accepts numbers and booleans and throws
`type_error.302` otherwise; calling `value` on a non-object throws
`type_error.306`.  `Except.error` carries the `what()` message of the
thrown exception. -/
def jvalue_int (params : Json) (key : String) (dflt : Int) : Except String Int :=
  match params with
  | .obj fs =>
    match fs.lookup key with
    | none => .ok dflt
    | some (.num n) => .ok n
    | some (.bool b) => .ok (if b then 1 else 0)
    | some v =>
      .error ("[json.exception.type_error.302] type must be number, but is " ++
        jtypeName v)
  | _ =>
    .error ("[json.exception.type_error.306] cannot use value() with " ++
      jtypeName params)

/-- `params.value(key, default)` instantiated at `std::string`:
`get<std::string>` accepts only strings. -/
def jvalue_str (params : Json) (key : String) (dflt : String) : Except String String :=
  match params with
  | .obj fs =>
    match fs.lookup key with
    | none => .ok dflt
    | some (.str s) => .ok s
    | some v =>
      .error ("[json.exception.type_error.302] type must be string, but is " ++
        jtypeName v)
  | _ =>
    .error ("[json.exception.type_error.306] cannot use value() with " ++
      jtypeName params)

/-- Sorted-map field update, the `std::map` semantics of assigning
through `nlohmann::json::operator[]`. -/
def jobjSetFields (fields : List (String × Json)) (k : String) (v : Json) :
    List (String × Json) :=
  match fields with
  | [] => [(k, v)]
  | (k', v') :: rest =>
    if k = k' then (k, v) :: rest
    else if k < k' then (k, v) :: (k', v') :: rest
    else (k', v') :: jobjSetFields rest k v

/-- `j[k] = v` on a JSON value already known to be an object (the
stores' elements are only assigned through this after a successful
probe). -/
def jobjSet (j : Json) (k : String) (v : Json) : Json :=
  match j with
  | .obj fs => .obj (jobjSetFields fs k v)
  | _ => j

/-- The mutable-element probe `todo["id"]` of the update loops:
non-const `operator[]` returns the stored value, inserts `null` under
the key when the object lacks it, converts a `null` element to an
object, and throws `type_error.305` on any other non-object.  Returns
the probed value together with the element after the probe. -/
def jprobeId (todo : Json) : Except String (Json × Json) :=
  match todo with
  | .obj fs =>
    match fs.lookup "id" with
    | some v => .ok (v, todo)
    | none => .ok (.null, .obj (jobjSetFields fs "id" .null))
  | .null => .ok (.null, .obj [("id", .null)])
  | other =>
    .error ("[json.exception.type_error.305] cannot use operator[] with a " ++
      "string argument with " ++ jtypeName other)

/-- The read-only probe `note["id"]` of the `read` loop (`const`
`operator[]`): a missing key is undefined behaviour in C++ and is
modelled as `null`; a non-object element throws as in the mutable
probe. -/
def jreadId (note : Json) : Except String Json :=
  match note with
  | .obj fs => .ok ((fs.lookup "id").getD .null)
  | .null => .ok .null
  | other =>
    .error ("[json.exception.type_error.305] cannot use operator[] with a " ++
      "string argument with " ++ jtypeName other)

/-- Todo storage (`TodoListStorage`, memory-only mode):
`data["todos"]` and `next_id`. -/
structure TodoStore where
  todos : List Json
  next_id : Int
deriving DecidableEq

/-- Notes storage (`NotesStorage`, memory-only mode). -/
structure NotesStore where
  notes : List Json
  next_id : Int
deriving DecidableEq

/-- The `complete` loop of `todo_tool_callback` (`todo_list.cpp` lines
129-137): first element whose probed `id` equals the target gets
`status`/`completed` set; a thrown probe aborts with the partially
probed list. -/
def todoCompleteLoop (now : String) (id : Int) :
    List Json → Except (String × List Json) (Bool × List Json)
  | [] => .ok (false, [])
  | t :: rest =>
    match jprobeId t with
    | .error e => .error (e, t :: rest)
    | .ok (v, t1) =>
      if v = Json.num id then
        .ok (true,
          jobjSet (jobjSet t1 "status" (.str "completed")) "completed" (.str now)
            :: rest)
      else
        match todoCompleteLoop now id rest with
        | .error (e, rest') => .error (e, t1 :: rest')
        | .ok (found, rest') => .ok (found, t1 :: rest')

/-- The erase-by-id loop shared verbatim by `todo_list.cpp` lines
158-166 and `notes.cpp` lines 191-199. -/
def eraseByIdLoop (id : Int) :
    List Json → Except (String × List Json) (Bool × List Json)
  | [] => .ok (false, [])
  | t :: rest =>
    match jprobeId t with
    | .error e => .error (e, t :: rest)
    | .ok (v, t1) =>
      if v = Json.num id then .ok (true, rest)
      else
        match eraseByIdLoop id rest with
        | .error (e, rest') => .error (e, t1 :: rest')
        | .ok (found, rest') => .ok (found, t1 :: rest')

/-- `todo_tool_callback`'s `try` block (`todo_list.cpp` lines 88-190)
after `json::parse` succeeded: `Except.error` is a thrown exception
carrying its `what()` message and the storage at the throw point. -/
def todo_op (now : String) (store : TodoStore) (params : Json) :
    Except (String × TodoStore) (String × TodoStore) :=
  match jvalue_str params "operation" "list" with
  | .error e => .error (e, store)
  | .ok operation =>
    if operation = "add" then
      match jvalue_str params "title" "" with
      | .error e => .error (e, store)
      | .ok title =>
        if title = "" then
          .ok (dumpJson (.obj [("error", .str "Title is required")]), store)
        else
          let todo := Json.obj [("created", .str now), ("id", .num store.next_id),
            ("status", .str "pending"), ("title", .str title)]
          .ok (dumpJson (.obj [("message", .str "Todo added successfully"),
              ("success", .bool true), ("todo", todo)]),
            ⟨store.todos ++ [todo], store.next_id + 1⟩)
    else if operation = "list" then
      .ok (dumpJson (.obj [("todos", .arr store.todos)]), store)
    else if operation = "complete" then
      match jvalue_int params "id" 0 with
      | .error e => .error (e, store)
      | .ok id =>
        if id = 0 then
          .ok (dumpJson (.obj [("error", .str "Todo ID is required")]), store)
        else
          match todoCompleteLoop now id store.todos with
          | .error (e, todos') => .error (e, ⟨todos', store.next_id⟩)
          | .ok (found, todos') =>
            if found then
              .ok (dumpJson (.obj [("message", .str "Todo marked as completed"),
                  ("success", .bool true)]), ⟨todos', store.next_id⟩)
            else
              .ok (dumpJson (.obj [("error", .str "Todo not found")]),
                ⟨todos', store.next_id⟩)
    else if operation = "delete" then
      match jvalue_int params "id" 0 with
      | .error e => .error (e, store)
      | .ok id =>
        if id = 0 then
          .ok (dumpJson (.obj [("error", .str "Todo ID is required")]), store)
        else
          match eraseByIdLoop id store.todos with
          | .error (e, todos') => .error (e, ⟨todos', store.next_id⟩)
          | .ok (found, todos') =>
            if found then
              .ok (dumpJson (.obj [("message", .str "Todo deleted successfully"),
                  ("success", .bool true)]), ⟨todos', store.next_id⟩)
            else
              .ok (dumpJson (.obj [("error", .str "Todo not found")]),
                ⟨todos', store.next_id⟩)
    else
      .ok (dumpJson (.obj [("error", .str ("Unknown operation: " ++ operation))]),
        store)

/-- `todo_tool_callback` (`todo_list.cpp` lines 85-197) on a parsed
parameter object: the surrounding `catch` renders any thrown message
as a `Todo tool error` result, with the storage as mutated so far. -/
def todo_tool_callback (now : String) (store : TodoStore) (params : Json) :
    String × TodoStore :=
  match todo_op now store params with
  | .ok r => r
  | .error (e, store') =>
    (dumpJson (.obj [("error", .str ("Todo tool error: " ++ e))]), store')

/-- ASCII lower-casing, modelling `::tolower` applied per character
(`notes.cpp` search). -/
def strLower (s : String) : String := String.mk (s.data.map Char.toLower)

/-- `std::string::find(q) != npos`: substring containment. -/
def containsSub (s q : String) : Bool := (listFind s.data q.data).isSome

/-- The `read` loop of `notes_tool_callback` (`notes.cpp` lines
132-137): first note whose `id` equals the target, if any. -/
def notesReadLoop (id : Int) : List Json → Except String (Option Json)
  | [] => .ok none
  | n :: rest =>
    match jreadId n with
    | .error e => .error e
    | .ok v =>
      if v = Json.num id then .ok (some n)
      else notesReadLoop id rest

/-- The `update` loop of `notes_tool_callback` (`notes.cpp` lines
153-170): the first matching note gets `content`/`tags` overwritten
when supplied and `modified` stamped. -/
def notesUpdateLoop (now : String) (params : Json) (id : Int) :
    List Json → Except (String × List Json) (Bool × List Json)
  | [] => .ok (false, [])
  | n :: rest =>
    match jprobeId n with
    | .error e => .error (e, n :: rest)
    | .ok (v, n1) =>
      if v = Json.num id then
        let n2 := match objLookup params "content" with
          | some c => jobjSet n1 "content" c
          | none => n1
        let n3 := match objLookup params "tags" with
          | some (Json.arr ts) => jobjSet n2 "tags" (.arr ts)
          | _ => n2
        .ok (true, jobjSet n3 "modified" (.str now) :: rest)
      else
        match notesUpdateLoop now params id rest with
        | .error (e, rest') => .error (e, n1 :: rest')
        | .ok (found, rest') => .ok (found, n1 :: rest')

/-- The tag scan of the `search` branch (`notes.cpp` lines 239-249):
`tag.get<std::string>()` throws on a non-string tag. -/
def tagsMatchLoop (queryLower : String) : List Json → Except String Bool
  | [] => .ok false
  | tag :: rest =>
    match tag with
    | .str s =>
      if containsSub (strLower s) queryLower then .ok true
      else tagsMatchLoop queryLower rest
    | other =>
      .error ("[json.exception.type_error.302] type must be string, but is " ++
        jtypeName other)

/-- The note filter of the `search` branch (`notes.cpp` lines
223-254): case-insensitive content match, then tags; an empty query
keeps every note. -/
def searchLoop (query : String) : List Json → Except String (List Json)
  | [] => .ok []
  | note :: rest =>
    match jvalue_str note "content" "" with
    | .error e => .error e
    | .ok content =>
      let contentMatch := containsSub (strLower content) (strLower query)
      let tagsCheck : Except String Bool :=
        if contentMatch then .ok false
        else
          match objLookup note "tags" with
          | some (.arr ts) => tagsMatchLoop (strLower query) ts
          | _ => .ok false
      match tagsCheck with
      | .error e => .error e
      | .ok tagMatch =>
        match searchLoop query rest with
        | .error e => .error e
        | .ok rest' =>
          .ok (if (contentMatch || tagMatch) || query = "" then note :: rest'
               else rest')

/-- `notes_tool_callback`'s `try` block (`notes.cpp` lines 90-271)
after `json::parse` succeeded. -/
def notes_op (now : String) (store : NotesStore) (params : Json) :
    Except (String × NotesStore) (String × NotesStore) :=
  match jvalue_str params "operation" "list" with
  | .error e => .error (e, store)
  | .ok operation =>
    if operation = "create" then
      match jvalue_str params "content" "" with
      | .error e => .error (e, store)
      | .ok content =>
        if content = "" then
          .ok (dumpJson (.obj [("error", .str "Content is required")]), store)
        else
          let tags := match objLookup params "tags" with
            | some (.arr ts) => Json.arr ts
            | _ => Json.arr []
          let note := Json.obj [("content", .str content), ("created", .str now),
            ("id", .num store.next_id), ("tags", tags)]
          .ok (dumpJson (.obj [("message", .str "Note created successfully"),
              ("note", note), ("success", .bool true)]),
            ⟨store.notes ++ [note], store.next_id + 1⟩)
    else if operation = "read" then
      match jvalue_int params "id" 0 with
      | .error e => .error (e, store)
      | .ok id =>
        if id = 0 then
          .ok (dumpJson (.obj [("error", .str "Note ID is required")]), store)
        else
          match notesReadLoop id store.notes with
          | .error e => .error (e, store)
          | .ok (some note) => .ok (dumpJson (.obj [("note", note)]), store)
          | .ok none =>
            .ok (dumpJson (.obj [("error", .str "Note not found")]), store)
    else if operation = "update" then
      match jvalue_int params "id" 0 with
      | .error e => .error (e, store)
      | .ok id =>
        if id = 0 then
          .ok (dumpJson (.obj [("error", .str "Note ID is required")]), store)
        else
          match notesUpdateLoop now params id store.notes with
          | .error (e, notes') => .error (e, ⟨notes', store.next_id⟩)
          | .ok (found, notes') =>
            if found then
              .ok (dumpJson (.obj [("message", .str "Note updated successfully"),
                  ("success", .bool true)]), ⟨notes', store.next_id⟩)
            else
              .ok (dumpJson (.obj [("error", .str "Note not found")]),
                ⟨notes', store.next_id⟩)
    else if operation = "delete" then
      match jvalue_int params "id" 0 with
      | .error e => .error (e, store)
      | .ok id =>
        if id = 0 then
          .ok (dumpJson (.obj [("error", .str "Note ID is required")]), store)
        else
          match eraseByIdLoop id store.notes with
          | .error (e, notes') => .error (e, ⟨notes', store.next_id⟩)
          | .ok (found, notes') =>
            if found then
              .ok (dumpJson (.obj [("message", .str "Note deleted successfully"),
                  ("success", .bool true)]), ⟨notes', store.next_id⟩)
            else
              .ok (dumpJson (.obj [("error", .str "Note not found")]),
                ⟨notes', store.next_id⟩)
    else if operation = "search" then
      match jvalue_str params "query" "" with
      | .error e => .error (e, store)
      | .ok query =>
        match searchLoop query store.notes with
        | .error e => .error (e, store)
        | .ok matching =>
          .ok (dumpJson (.obj [("count", .num matching.length),
              ("notes", .arr matching)]), store)
    else if operation = "list" then
      .ok (dumpJson (.obj [("count", .num store.notes.length),
          ("notes", .arr store.notes)]), store)
    else
      .ok (dumpJson (.obj [("error", .str ("Unknown operation: " ++ operation))]),
        store)

/-- `notes_tool_callback` (`notes.cpp` lines 87-278) on a parsed
parameter object. -/
def notes_tool_callback (now : String) (store : NotesStore) (params : Json) :
    String × NotesStore :=
  match notes_op now store params with
  | .ok r => r
  | .error (e, store') =>
    (dumpJson (.obj [("error", .str ("Notes tool error: " ++ e))]), store')

/-- C10 (amended): for the todo `complete`/`delete` and notes
`read`/`update`/`delete` operations, a request whose `id` is absent,
the number 0, or the boolean `false` (which `get<int>` coerces to 0)
returns the `ID is required` error result and leaves the store
untouched; a request whose `id` is any non-numeric, non-boolean value
makes `value("id", 0)` throw, so the catch returns a
`Todo/Notes tool error: ... type must be number ...` result — not the
`ID is required` one — again leaving the store untouched.  Since every
stored id check happens only after `id != 0`, an item with id 0 is
unaddressable by these operations. -/
theorem C10_id_validation (now : String) (tstore : TodoStore) (nstore : NotesStore)
    (op : String) (fields : List (String × Json))
    (hop : fields.lookup "operation" = some (.str op)) :
    ((op = "complete" ∨ op = "delete") →
      (fields.lookup "id" = none ∨ fields.lookup "id" = some (.num 0) ∨
        fields.lookup "id" = some (.bool false)) →
      todo_tool_callback now tstore (.obj fields) =
        (dumpJson (.obj [("error", .str "Todo ID is required")]), tstore)) ∧
    ((op = "read" ∨ op = "update" ∨ op = "delete") →
      (fields.lookup "id" = none ∨ fields.lookup "id" = some (.num 0) ∨
        fields.lookup "id" = some (.bool false)) →
      notes_tool_callback now nstore (.obj fields) =
        (dumpJson (.obj [("error", .str "Note ID is required")]), nstore)) ∧
    (∀ v : Json, (op = "complete" ∨ op = "delete") →
      fields.lookup "id" = some v →
      (∀ n : Int, ¬ v = .num n) → (∀ b : Bool, ¬ v = .bool b) →
      todo_tool_callback now tstore (.obj fields) =
        (dumpJson (.obj [("error", .str ("Todo tool error: " ++
          ("[json.exception.type_error.302] type must be number, but is " ++
            jtypeName v)))]), tstore)) ∧
    (∀ v : Json, (op = "read" ∨ op = "update" ∨ op = "delete") →
      fields.lookup "id" = some v →
      (∀ n : Int, ¬ v = .num n) → (∀ b : Bool, ¬ v = .bool b) →
      notes_tool_callback now nstore (.obj fields) =
        (dumpJson (.obj [("error", .str ("Notes tool error: " ++
          ("[json.exception.type_error.302] type must be number, but is " ++
            jtypeName v)))]), nstore)) := by
  have herr : ∀ v : Json, fields.lookup "id" = some v →
      (∀ n : Int, ¬ v = .num n) → (∀ b : Bool, ¬ v = .bool b) →
      jvalue_int (.obj fields) "id" 0 =
        .error ("[json.exception.type_error.302] type must be number, but is " ++
          jtypeName v) := by
    intro v hidv hnn hnb
    cases v with
    | num n => exact absurd rfl (hnn n)
    | bool b => exact absurd rfl (hnb b)
    | null => simp [jvalue_int, hidv, jtypeName]
    | str s => simp [jvalue_int, hidv, jtypeName]
    | arr l => simp [jvalue_int, hidv, jtypeName]
    | obj l => simp [jvalue_int, hidv, jtypeName]
  refine ⟨?_, ?_, ?_, ?_⟩
  · intro hopc hid
    rcases hopc with hopc | hopc <;> subst hopc <;>
      rcases hid with hid | hid | hid <;>
        simp [todo_tool_callback, todo_op, jvalue_str, jvalue_int, hop, hid]
  · intro hopc hid
    rcases hopc with hopc | hopc | hopc <;> subst hopc <;>
      rcases hid with hid | hid | hid <;>
        simp [notes_tool_callback, notes_op, jvalue_str, jvalue_int, hop, hid]
  · intro v hopc hidv hnn hnb
    rcases hopc with hopc | hopc <;> subst hopc <;>
      simp [todo_tool_callback, todo_op, jvalue_str, hop, herr v hidv hnn hnb]
  · intro v hopc hidv hnn hnb
    rcases hopc with hopc | hopc | hopc <;> subst hopc <;>
      simp [notes_tool_callback, notes_op, jvalue_str, hop, herr v hidv hnn hnb]

/-- Witness for C10: a `complete` request with no `id` yields the
`ID is required` error and the empty store is unchanged. -/
theorem C10_id_validation_witness :
    todo_tool_callback "t0" ⟨[], 1⟩ (.obj [("operation", .str "complete")]) =
      (dumpJson (.obj [("error", .str "Todo ID is required")]), ⟨[], 1⟩) :=
  (C10_id_validation "t0" ⟨[], 1⟩ ⟨[], 1⟩ "complete"
    [("operation", Json.str "complete")] rfl).1 (Or.inl rfl) (Or.inl rfl)

/-- C10 counterexample: the claim promises the `ID is required` result
for a non-numeric id; a string id instead surfaces the json
type-error through the catch-all as a `tool error` result, for both
tools. -/
theorem C10_nonnumeric_id_counterexample :
    (todo_tool_callback "t0" ⟨[], 1⟩
      (.obj [("operation", .str "complete"), ("id", .str "5")])).1 =
      dumpJson (.obj [("error", .str ("Todo tool error: " ++
        "[json.exception.type_error.302] type must be number, but is string"))]) ∧
    ¬ (todo_tool_callback "t0" ⟨[], 1⟩
      (.obj [("operation", .str "complete"), ("id", .str "5")])).1 =
      dumpJson (.obj [("error", .str "Todo ID is required")]) ∧
    (notes_tool_callback "t0" ⟨[], 1⟩
      (.obj [("id", .str "5"), ("operation", .str "read")])).1 =
      dumpJson (.obj [("error", .str ("Notes tool error: " ++
        "[json.exception.type_error.302] type must be number, but is string"))]) := by
  refine ⟨rfl, by decide, rfl⟩

/-- A registered tool whose callback may read and write the agent's
history through its captured `luup_agent*` (the builtin summarization
tool's `SummarizationState` holds such a pointer and
`apply_summarization` rewrites `agent->history` through it): the
callback receives the parameter string and the history at call time
and returns the (nullable) result together with the history it leaves
behind. -/
structure MutToolEntry where
  description : Option String
  parameters_json : Option String
  callback : String → List Msg → Option String × List Msg

/-- The registry's descriptor view: the schema generator only reads
each tool's name, description and parameters, never the callback. -/
def describeTools (tools : List (String × MutToolEntry)) : List (String × ToolEntry) :=
  tools.map (fun p => (p.1, ⟨p.2.description, p.2.parameters_json, fun _ => none⟩))

/-- `execute_tool` (`tool_calling.cpp` lines 146-186) over a
history-mutating registry: the callback's history write-back persists
even when its result is null. -/
def execute_tool_mut (tool_name parameters_json : String)
    (tools : List (String × MutToolEntry)) (history : List Msg) :
    String × List Msg :=
  match tools.lookup tool_name with
  | none =>
    (dumpJson (.obj [("error", .str "Tool not found"), ("tool_name", .str tool_name)]),
     history)
  | some info =>
    match info.callback parameters_json history with
    | (some r, h') => (r, h')
    | (none, h') =>
      (dumpJson (.obj [("error", .str "Tool execution failed"),
        ("tool_name", .str tool_name)]), h')

/-- The `luup_agent` struct with a history-mutating tool registry. -/
structure MutAgent where
  system_prompt : String
  temperature : ℚ
  max_tokens : Int
  enable_tool_calling : Bool
  enable_history_management : Bool
  enable_builtin_tools : Bool
  history : List Msg
  tools : List (String × MutToolEntry)

/-- The backend prompt of one generation step for a history-mutating
registry; the rendering and injection only read descriptor fields. -/
def mut_agent_prompt (ag : MutAgent) (user_message : String) : String :=
  inject_tool_schema ag.enable_tool_calling (describeTools ag.tools)
    (render_prompt ag.enable_history_management ag.system_prompt ag.history user_message)

/-- `luup_agent_generate_internal` (`agent.cpp` lines 266-381) over a
history-mutating registry.  Tool callbacks run first, threading the
history through `execute_tool_mut` (in C++ the callback mutates
`agent->history` in place during the loop at lines 336-339); only then
are the assistant response and the tool-results user message appended
(lines 342-353), and the recursion re-enters.  When history management
is off the appends are skipped but the callbacks' history writes still
land. -/
def luup_agent_generate_mut_fuel (backend : Nat → String → Option String) :
    Nat → Nat → MutAgent → String → Bool → Option (String × MutAgent × Nat)
  | 0, _, _, _, _ => none
  | fuel + 1, callIdx, ag, user_message, add_to_history =>
    let ag1 := if add_to_history && ag.enable_history_management then
      { ag with history := ag.history ++ [⟨"user", user_message⟩] } else ag
    let prompt := mut_agent_prompt ag1 user_message
    match backend callIdx prompt with
    | none => none
    | some response =>
      let tool_calls := if ag1.enable_tool_calling && !ag1.tools.isEmpty then
        parse_tool_calls response else []
      if tool_calls.isEmpty then
        let ag2 := if ag1.enable_history_management then
          { ag1 with history := ag1.history ++ [⟨"assistant", response⟩] } else ag1
        some (response, ag2, 0)
      else
        let acc := tool_calls.foldl (fun acc tc =>
          (acc.1 ++ format_tool_result tc.tool_name
              (execute_tool_mut tc.tool_name tc.parameters_json ag1.tools acc.2).1 ++ "\n",
           (execute_tool_mut tc.tool_name tc.parameters_json ag1.tools acc.2).2))
          ("", ag1.history)
        let ag2 := if ag1.enable_history_management then
          { ag1 with history := acc.2 ++ [⟨"assistant", response⟩, ⟨"user", acc.1⟩] }
        else { ag1 with history := acc.2 }
        match luup_agent_generate_mut_fuel backend fuel (callIdx + 1) ag2 acc.1 false with
        | none => none
        | some (r, ag3, k) => some (r, ag3, k + 1)

theorem lookup_mem {β : Type} :
    ∀ (l : List (String × β)) (k : String) (v : β), l.lookup k = some v → (k, v) ∈ l := by
  intro l
  induction l with
  | nil => intro k v h; exact Option.noConfusion h
  | cons p t ih =>
    intro k v h
    obtain ⟨k', v'⟩ := p
    simp only [List.lookup] at h
    split at h
    · rename_i hk
      obtain rfl : v' = v := Option.some.inj h
      obtain rfl : k = k' := by simpa using hk
      exact List.mem_cons_self _ _
    · exact List.mem_cons_of_mem _ (ih k v h)

theorem execute_tool_mut_inert (tools : List (String × MutToolEntry))
    (hin : ∀ nm e, (nm, e) ∈ tools → ∀ p h, (e.callback p h).2 = h)
    (nm pj : String) (h : List Msg) :
    (execute_tool_mut nm pj tools h).2 = h := by
  cases hl : tools.lookup nm with
  | none => simp [execute_tool_mut, hl]
  | some info =>
    have hcb := hin nm info (lookup_mem tools nm info hl) pj h
    rcases hc : info.callback pj h with ⟨or, h'⟩
    obtain rfl : h' = h := by rw [hc] at hcb; exact hcb
    cases or <;> simp [execute_tool_mut, hl, hc]

theorem foldl_snd_inert {α : Type} (f : (String × List Msg) → α → (String × List Msg))
    (hf : ∀ acc a, (f acc a).2 = acc.2) :
    ∀ (l : List α) (acc : String × List Msg), (l.foldl f acc).2 = acc.2 := by
  intro l
  induction l with
  | nil => intro acc; rfl
  | cons a t ih => intro acc; rw [List.foldl_cons, ih, hf]

theorem generate_mut_history_shape (backend : Nat → String → Option String) :
    ∀ (fuel callIdx : Nat) (ag : MutAgent) (u : String) (add : Bool) (r : String)
      (ag' : MutAgent) (k : Nat),
    ag.enable_history_management = true →
    (∀ nm e, (nm, e) ∈ ag.tools → ∀ p h, (e.callback p h).2 = h) →
    luup_agent_generate_mut_fuel backend fuel callIdx ag u add = some (r, ag', k) →
    ∃ ps : List (String × String),
      ag'.history = ag.history ++
        ((if add then [Msg.mk "user" u] else []) ++
         ((ps.bind fun p => [Msg.mk "assistant" p.1, Msg.mk "user" p.2]) ++
          [Msg.mk "assistant" r])) ∧
      ps.length = k := by
  intro fuel
  induction fuel with
  | zero =>
    intro callIdx ag u add r ag' k hh hin h
    exact absurd h (by simp [luup_agent_generate_mut_fuel])
  | succ f ih =>
    intro callIdx ag u add r ag' k hh hin h
    rw [luup_agent_generate_mut_fuel] at h
    dsimp only at h
    set ag1 := if add && ag.enable_history_management then
      { ag with history := ag.history ++ [⟨"user", u⟩] } else ag with hag1
    have hh1 : ag1.enable_history_management = true := by
      rw [hag1]; split <;> simpa using hh
    have htools1 : ag1.tools = ag.tools := by
      rw [hag1]; split <;> rfl
    have hag1hist : ag1.history = ag.history ++ (if add then [Msg.mk "user" u] else []) := by
      rw [hag1, hh]
      cases add <;> simp
    rcases hb : backend callIdx (mut_agent_prompt ag1 u) with _ | resp <;> rw [hb] at h
    · exact absurd h (by simp)
    dsimp only at h
    set tcs := if ag1.enable_tool_calling && !ag1.tools.isEmpty then
      parse_tool_calls resp else [] with htcs
    by_cases hemp : tcs.isEmpty
    · rw [if_pos hemp, if_pos hh1] at h
      simp only [Option.some.injEq, Prod.mk.injEq] at h
      obtain ⟨rfl, rfl, rfl⟩ := h
      refine ⟨[], ?_, rfl⟩
      simp [hag1hist]
    · rw [if_neg hemp, if_pos hh1] at h
      set accr := tcs.foldl (fun acc tc =>
        (acc.1 ++ format_tool_result tc.tool_name
            (execute_tool_mut tc.tool_name tc.parameters_json ag1.tools acc.2).1 ++ "\n",
         (execute_tool_mut tc.tool_name tc.parameters_json ag1.tools acc.2).2))
        ("", ag1.history) with hacc
    
      have hsnd : accr.2 = ag1.history := by
        rw [hacc]
        exact foldl_snd_inert
          (fun acc tc =>
            (acc.1 ++ format_tool_result tc.tool_name
                (execute_tool_mut tc.tool_name tc.parameters_json ag1.tools acc.2).1 ++ "
",
             (execute_tool_mut tc.tool_name tc.parameters_json ag1.tools acc.2).2))
          (fun acc tc => execute_tool_mut_inert ag1.tools
            (htools1 ▸ hin) tc.tool_name tc.parameters_json acc.2)
          tcs ("", ag1.history)
      rw [hsnd] at h
      rcases hrec : luup_agent_generate_mut_fuel backend f (callIdx + 1)
          { ag1 with history := ag1.history ++
              [⟨"assistant", resp⟩, ⟨"user", accr.1⟩] } accr.1 false
          with _ | ⟨r3, ag3, k3⟩ <;> rw [hrec] at h
      · exact absurd h (by simp)
      simp only [Option.some.injEq, Prod.mk.injEq] at h
      obtain ⟨rfl, rfl, rfl⟩ := h
      obtain ⟨ps', hps', hlen⟩ := ih (callIdx + 1) _ accr.1 false r3 ag3 k3
        (by simpa using hh1) (by simpa using (htools1 ▸ hin)) hrec
      refine ⟨(resp, accr.1) :: ps', ?_, by simpa using hlen⟩
      simp only [List.cons_bind] at hps' ⊢
      rw [hps', hag1hist]
      simp

/-- The fixed preamble of the summary prompt
(`summarization.cpp` lines 71-74). -/
def summary_prompt_header : String :=
  "Please provide a concise summary of the conversation below, " ++
  "capturing the key points, decisions, and context. Keep it brief " ++
  "but informative.\n\n"

/-- `SummarizationState::generate_summary` (`summarization.cpp` lines
66-111): the model call is the `sumBackend` parameter
(`llama_backend_generate` at temperature 0.3, 256 tokens; `none`
models a null return or missing backend data), and every failure path
returns the empty string.  The cut `(size_t)(size * 0.6)` is `3n/5`
as in `apply_summarization`. -/
def generate_summary (sumBackend : String → Option String) (history : List Msg) :
    String :=
  if history.isEmpty then ""
  else
    let n6 := 3 * history.length / 5
    let num := if n6 < 2 then (if 2 < history.length then 2 else 0) else n6
    let prompt := summary_prompt_header ++
      ((history.take num).foldl
        (fun acc m => acc ++ m.role ++ ": " ++ m.content ++ "\n\n") "") ++
      "Summary:"
    match sumBackend prompt with
    | none => ""
    | some s => s

/-- `SummarizationState::should_summarize` (`summarization.cpp` lines
50-64), at a given enabled flag and context size; the `0.75f`
threshold is exactly representable. -/
def should_summarize (enabled : Bool) (contextSize : Nat) (history : List Msg) :
    Bool :=
  if !enabled then false
  else
    decide (((history.foldl
      (fun acc m => acc + estimate_token_count m.content + 10) 0 : Nat) : ℚ) ≥
      (3 / 4 : ℚ) * contextSize)

/-- The `current_tokens` sum of the `status` branch
(`summarization.cpp` lines 186-190): per-message estimates without the
role overhead. -/
def status_tokens (history : List Msg) : Nat :=
  history.foldl (fun acc m => acc + estimate_token_count m.content) 0

/-- Decimal rendering of a `Nat`, as `nlohmann::json::dump` prints the
unsigned numbers of the `status` result. -/
def natStr (n : Nat) : String := String.mk (natChars n)

/-- Boolean rendering of `nlohmann::json::dump`. -/
def boolStr (b : Bool) : String := if b then "true" else "false"

/-- `summarization_tool_callback` (`summarization.cpp` lines 171-236)
as a history-mutating callback.  The closed-over `SummarizationState`
is supplied as parameters: the summary backend, the enabled flag and
the context size (the `0.75f` threshold is never reassigned and is
rendered as the literal `0.75`); `parseErr` stands for the `what()` of
an `nlohmann` parse exception, reached only on malformed parameter
strings.  The `enable`/`disable` writes to the flag live in the
closed-over state, not the history, so the callback is modelled at a
fixed flag value; `trigger` applies `apply_summarization` to the
history exactly as lines 197-205 do through the captured agent
pointer. -/
def summarization_tool_callback (sumBackend : String → Option String)
    (parseErr : String → String) (enabled : Bool) (contextSize : Nat)
    (params_json : String) (history : List Msg) : Option String × List Msg :=
  match parseJson params_json with
  | none =>
    (some (dumpJson (.obj [("error",
      .str ("Summarization tool error: " ++ parseErr params_json))])), history)
  | some params =>
    match jvalue_str params "operation" "status" with
    | .error e =>
      (some (dumpJson (.obj [("error",
        .str ("Summarization tool error: " ++ e))])), history)
    | .ok operation =>
      if operation = "status" then
        (some ("\x7b\"context_size\":" ++ natStr contextSize ++
          ",\"current_tokens\":" ++ natStr (status_tokens history) ++
          ",\"enabled\":" ++ boolStr enabled ++
          ",\"should_summarize\":" ++
            boolStr (should_summarize enabled contextSize history) ++
          ",\"threshold\":0.75\x7d"), history)
      else if operation = "trigger" then
        if enabled then
          (some (dumpJson (.obj [("message", .str "Summarization applied"),
            ("success", .bool true)])),
           apply_summarization (generate_summary sumBackend history) history)
        else
          (some (dumpJson (.obj [("error",
            .str "Summarization not enabled or agent invalid")])), history)
      else if operation = "enable" then
        (some (dumpJson (.obj [("message", .str "Summarization enabled"),
          ("success", .bool true)])), history)
      else if operation = "disable" then
        (some (dumpJson (.obj [("message", .str "Summarization disabled"),
          ("success", .bool true)])), history)
      else
        (some (dumpJson (.obj [("error",
          .str ("Unknown operation: " ++ operation))])), history)

/-- An assistant response that manually triggers summarization. -/
def c3TriggerResponse : String :=
  dumpJson (.obj [("name", .str "summarization"),
    ("parameters", .obj [("operation", .str "trigger")])])

/-- A backend that triggers summarization on the first call and
answers plainly on the re-entry. -/
def c3MutBackend : Nat → String → Option String :=
  fun i _ => if i = 0 then some c3TriggerResponse else some "done"

/-- The registered summarization tool of the C3 scenario: enabled,
default 2048-token context, summary backend returning `"sum"`. -/
def c3SumEntry : MutToolEntry :=
  ⟨some "Control auto-summarization: check status, manually trigger, enable/disable",
   some summarizationToolParams,
   summarization_tool_callback (fun _ => some "sum") (fun _ => "") true 2048⟩

/-- The agent of the C3 counterexample: history management and tool
calling on, summarization registered, five prior messages. -/
def c3MutAgent : MutAgent :=
  ⟨"S", 7/10, 0, true, true, true,
   [⟨"system", "S"⟩, ⟨"user", "u0"⟩, ⟨"assistant", "a0"⟩, ⟨"user", "u2"⟩,
    ⟨"assistant", "a2"⟩],
   [("summarization", c3SumEntry)]⟩

set_option maxRecDepth 8192 in
/-- C3 counterexample: on a respond during which the model triggers the
builtin summarization tool, the callback rewrites the history through
its captured agent pointer mid-call; the run still succeeds with one
tool re-entry, but the final history has 8 messages instead of the
claimed 5 + 2 + 2·1 = 9, and the original `user` message `u0` has been
deleted rather than preserved, so the history did not grow by
appending at all. -/
theorem C3_summarization_counterexample :
    (luup_agent_generate_mut_fuel c3MutBackend 2 0 c3MutAgent "u1" true).map
        (fun t => (t.1, t.2.2, t.2.1.history.length,
          decide (Msg.mk "user" "u0" ∈ t.2.1.history))) =
      some ("done", 1, 8, false) ∧
    Msg.mk "user" "u0" ∈ c3MutAgent.history ∧
    ¬ c3MutAgent.history.length + 2 + 2 * 1 = 8 := by
  refine ⟨rfl, by decide, by decide⟩

/-- C3 (amended): with history management enabled, a successful
generation whose executed tool callbacks are all history-inert (none
writes back through its captured agent pointer) appends exactly one
`user` and one `assistant` message plus an `assistant`/`user` pair per
tool re-entry, in call order.  Without the inertness condition the
builtin summarization tool can rewrite and shrink the history
mid-respond (`C3_summarization_counterexample`). -/
theorem C3_history_growth_inert (backend : Nat → String → Option String)
    (fuel callIdx : Nat) (ag : MutAgent) (u r : String) (ag' : MutAgent) (k : Nat)
    (hh : ag.enable_history_management = true)
    (hin : ∀ nm e, (nm, e) ∈ ag.tools → ∀ p h, (e.callback p h).2 = h)
    (h : luup_agent_generate_mut_fuel backend fuel callIdx ag u true = some (r, ag', k)) :
    ag'.history.length = ag.history.length + 2 + 2 * k ∧
    ∃ ps : List (String × String),
      ag'.history = ag.history ++
        Msg.mk "user" u ::
          ((ps.bind fun p => [Msg.mk "assistant" p.1, Msg.mk "user" p.2]) ++
            [Msg.mk "assistant" r]) ∧ ps.length = k := by
  obtain ⟨ps, hsh, hlen⟩ :=
    generate_mut_history_shape backend fuel callIdx ag u true r ag' k hh hin h
  simp only [if_pos rfl] at hsh
  constructor
  · rw [hsh]
    simp only [List.length_append, List.singleton_append, List.length_cons,
      pairs_bind_length, List.length_nil, hlen, if_true, List.length_singleton]
    omega
  · exact ⟨ps, by simpa using hsh, hlen⟩

/-- The agent of the C3 witness run: history on, no tools (so every
registered callback is vacuously history-inert). -/
def c3InertAgent : MutAgent :=
  ⟨"", 7/10, 0, false, true, false, [], []⟩

/-- Witness for C3: a one-step run with a plain-text backend and an
empty (hence inert) registry grows the history by exactly two
messages. -/
theorem C3_history_growth_inert_witness :
    ({ c3InertAgent with history := [Msg.mk "user" "hi", Msg.mk "assistant" "ok"] } :
        MutAgent).history.length = c3InertAgent.history.length + 2 + 2 * 0 :=
  (C3_history_growth_inert (fun _ _ => some "ok") 1 0 c3InertAgent "hi" "ok"
    { c3InertAgent with history := [Msg.mk "user" "hi", Msg.mk "assistant" "ok"] } 0
    rfl (fun nm e hmem => absurd hmem (List.not_mem_nil _)) rfl).1
